import Mathlib

/-!
Verification of the run/sample metadata extraction engine of
`mytardis_ngs_ingestor` (file `illumina/run_info.py`), shallowly embedded
in Lean.  Python strings are embedded as `String` values manipulated
through `List Char`; Python dictionaries as ordered association lists
(matching CPython's insertion-ordered dicts); fallible code returns
`Except`.  Regular-expression matching (module `re`, as used by
`parse_sample_info_from_filename`) is embedded by a small backtracking
engine whose alternative order reproduces CPython's leftmost/greedy
backtracking, so that `re.match` is "first result in priority order whose
remainder satisfies the end anchor".
-/

set_option maxRecDepth 20000

/-! ### String utilities (Python `str` methods over `List Char`) -/

/-- Does the pattern list occur as the initial segment of the second list?
Embeds Python `str.startswith` (after `toList`). -/
def leadsWith : List Char → List Char → Bool
  | [], _ => true
  | _ :: _, [] => false
  | p :: ps, c :: cs => (p = c) && leadsWith ps cs

/-- Membership of a substring, Python's `needle in haystack`. -/
def containsSubList (needle : List Char) : List Char → Bool
  | [] => needle.isEmpty
  | c :: rest => leadsWith needle (c :: rest) || containsSubList needle rest

/-- Python `needle in haystack` on strings. -/
def containsSub (needle s : String) : Bool :=
  containsSubList needle.toList s.toList

/-- Python `s.startswith(pat)`. -/
def pyStartsWith (s pat : String) : Bool :=
  leadsWith pat.toList s.toList

/-- Helper for splitting on a single character. -/
def splitOnCharAux (sep : Char) : List Char → List Char → List (List Char)
  | [], acc => [acc.reverse]
  | c :: rest, acc =>
    if c = sep then acc.reverse :: splitOnCharAux sep rest []
    else splitOnCharAux sep rest (c :: acc)

/-- Python `s.split(sep)` for a one-character separator (all occurrences,
empty pieces kept, `''.split(sep) == ['']`). -/
def pySplitChar (s : String) (sep : Char) : List String :=
  (splitOnCharAux sep s.toList []).map String.mk

/-- Python `s.split(sep, 1)` for a one-character separator: `none` when the
separator does not occur (so tuple unpacking of two names would raise). -/
def splitFirstAux (sep : Char) : List Char → List Char → Option (List Char × List Char)
  | [], _ => none
  | c :: rest, acc =>
    if c = sep then some (acc.reverse, rest) else splitFirstAux sep rest (c :: acc)

/-- Python `s.split(sep, 1)` returning the two pieces, `none` if `sep` absent. -/
def pySplitFirstChar (s : String) (sep : Char) : Option (String × String) :=
  (splitFirstAux sep s.toList []).map fun p => (String.mk p.1, String.mk p.2)

/-- Text before and after the first occurrence of the (non-empty) separator,
`none` when it does not occur. -/
def splitFirstSubAux (sep : List Char) : List Char → List Char → Option (List Char × List Char)
  | [], _ => none
  | c :: rest, acc =>
    if leadsWith sep (c :: rest) then some (acc.reverse, (c :: rest).drop sep.length)
    else splitFirstSubAux sep rest (c :: acc)

/-- Split on every (non-overlapping, left-to-right) occurrence of the
separator; the fuel is always at least the string length plus one, which
suffices because each found separator consumes at least one character. -/
def splitOnSubFuel (sep : List Char) : Nat → List Char → List (List Char)
  | 0, s => [s]
  | fuel + 1, s =>
    match splitFirstSubAux sep s [] with
    | none => [s]
    | some (pre, post) => pre :: splitOnSubFuel sep fuel post

/-- Python `s.split(sep)` for a multi-character (non-empty) separator. -/
def pySplitOnSub (s sep : String) : List String :=
  (splitOnSubFuel sep.toList (s.toList.length + 1) s.toList).map String.mk

/-- The six characters Python `str.strip()` removes. -/
def isPySpace (c : Char) : Bool :=
  c = ' ' || c = '\t' || c = '\n' || c = '\r' || c = '\x0b' || c = '\x0c'

/-- Python `s.strip()`. -/
def pyStrip (s : String) : String :=
  String.mk (((s.toList.dropWhile isPySpace).reverse.dropWhile isPySpace).reverse)

/-- Python `s.lstrip(c)` for a one-character strip set. -/
def pyLstripChar (s : String) (c : Char) : String :=
  String.mk (s.toList.dropWhile (· = c))

/-- Helper for whitespace splitting. -/
def wsSplitAux : List Char → List Char → List (List Char)
  | [], acc => if acc.isEmpty then [] else [acc.reverse]
  | c :: rest, acc =>
    if isPySpace c then
      if acc.isEmpty then wsSplitAux rest [] else acc.reverse :: wsSplitAux rest []
    else wsSplitAux rest (c :: acc)

/-- Python `s.split()` with no argument: split on whitespace runs, no empty
pieces. -/
def pyWsSplit (s : String) : List String :=
  (wsSplitAux s.toList []).map String.mk

/-- Python `s.replace('_', '')` as used to normalise samplesheet column keys. -/
def stripUnderscores (s : String) : String :=
  String.mk (s.toList.filter (· ≠ '_'))

/-- Universal-newline normalisation done by `open(path, "rU")`:
`\r\n` and bare `\r` both become `\n`. -/
def normNL : List Char → List Char
  | [] => []
  | '\r' :: '\n' :: rest => '\n' :: normNL rest
  | '\r' :: rest => '\n' :: normNL rest
  | c :: rest => c :: normNL rest

/-- Helper keeping the terminators, like `file.readlines()`. -/
def splitLinesAux : List Char → List Char → List String
  | [], acc => if acc.isEmpty then [] else [String.mk acc.reverse]
  | c :: rest, acc =>
    if c = '\n' then String.mk (acc.reverse ++ ['\n']) :: splitLinesAux rest []
    else splitLinesAux rest (c :: acc)

/-- `f.readlines()` of a file opened in universal-newline mode: the lines of
the content, each keeping its (normalised) `\n` terminator, the final line
possibly unterminated; an empty file gives no lines. -/
def readlinesU (content : String) : List String :=
  splitLinesAux (normNL content.toList) []

/-- Remove one trailing `\n` if present (what the `csv` module sees of a line). -/
def chompNL (s : String) : String :=
  String.mk (if s.toList.getLast? = some '\n' then s.toList.dropLast else s.toList)

/-- Python `list.index` returning `none` instead of raising `ValueError`. -/
def idxOfAux (x : String) : List String → Nat → Option Nat
  | [], _ => none
  | y :: ys, i => if y = x then some i else idxOfAux x ys (i + 1)

/-- Index of the first occurrence of `x` in `l` (Python `l.index(x)`). -/
def listIndex? (l : List String) (x : String) : Option Nat :=
  idxOfAux x l 0

/-- Python `os.path.basename` for POSIX paths: the text after the last `/`. -/
def basename (p : String) : String :=
  (pySplitChar p '/').getLastD ""

/-- Digits of a decimal numeral to a number; Python `int()` on the
digit-only strings this program feeds it (regex captures of `\d+`/`\d`). -/
def digitsToNat (s : String) : Nat :=
  s.toList.foldl (fun n c => n * 10 + (c.toNat - 48)) 0

/-! ### Ordered dictionaries (CPython `dict` / `OrderedDict`) -/

/-- Python `d[k] = v` on an insertion-ordered dictionary represented as an
association list: update in place if the key exists, else append. -/
def pyDictInsert {κ β : Type} [DecidableEq κ] (d : List (κ × β)) (k : κ) (v : β) :
    List (κ × β) :=
  if d.any (fun p => p.1 = k) then
    d.map (fun p => if p.1 = k then (p.1, v) else p)
  else d ++ [(k, v)]

/-- Python `d.get(k)` / `d[k]` lookup on the association-list dictionary. -/
def lookupP {κ β : Type} [DecidableEq κ] (d : List (κ × β)) (k : κ) : Option β :=
  (d.find? (fun p => p.1 = k)).map Prod.snd

theorem map_upd_id {κ β : Type} [DecidableEq κ] (rest : List (κ × β)) (k : κ) (v : β)
    (h : ∀ x ∈ rest, x.1 ≠ k) :
    rest.map (fun p => if p.1 = k then (p.1, v) else p) = rest := by
  induction rest with
  | nil => rfl
  | cons a l ih =>
    have ha : a.1 ≠ k := h a (by simp)
    simp only [List.map_cons, ha, if_false, List.cons.injEq, true_and]
    exact ih (fun x hx => h x (by simp [hx]))

theorem lookupP_insert_same {κ β : Type} [DecidableEq κ]
    (d : List (κ × β)) (k : κ) (v : β) : lookupP (pyDictInsert d k v) k = some v := by
  unfold pyDictInsert lookupP
  by_cases h : d.any (fun p => p.1 = k)
  · rw [if_pos h]
    induction d with
    | nil => simp at h
    | cons p rest ih =>
      by_cases hp : p.1 = k
      · simp [List.find?, hp]
      · simp only [List.any_cons, hp, decide_False, Bool.false_or] at h
        simp only [List.map_cons, hp, if_false]
        rw [List.find?]
        simp only [hp, decide_False]
        exact ih h
  · rw [if_neg h]
    rw [List.find?_append]
    have hnone : d.find? (fun p => decide (p.1 = k)) = none := by
      rw [List.find?_eq_none]
      intro x hx
      simp only [List.any_eq_true] at h
      simp only [decide_eq_true_eq]
      intro hk
      exact h ⟨x, hx, by simp [hk]⟩
    simp [hnone, List.find?]

theorem lookupP_insert_other {κ β : Type} [DecidableEq κ]
    (d : List (κ × β)) (k k' : κ) (v : β) (hne : k' ≠ k) :
    lookupP (pyDictInsert d k v) k' = lookupP d k' := by
  unfold pyDictInsert lookupP
  by_cases h : d.any (fun p => p.1 = k)
  · rw [if_pos h]
    induction d with
    | nil => simp
    | cons p rest ih =>
      by_cases hp : p.1 = k
      · simp only [List.map_cons, hp, if_true]
        rw [List.find?, List.find?]
        have hkk : (decide (k = k')) = false := by
          simp only [decide_eq_false_iff_not]
          exact fun hh => hne hh.symm
        simp only [hp, hkk]
        by_cases hrest : rest.any (fun p => p.1 = k)
        · exact ih hrest
        · rw [map_upd_id rest k v]
          intro x hx hk
          simp only [List.any_eq_true] at hrest
          exact hrest ⟨x, hx, by simp [hk]⟩
      · simp only [List.map_cons, hp, if_false]
        rw [List.find?, List.find?]
        by_cases hpk : p.1 = k'
        · simp [hpk]
        · simp only [hpk, decide_False]
          by_cases hrest : rest.any (fun p => p.1 = k)
          · exact ih hrest
          · rw [map_upd_id rest k v]
            intro x hx hk
            simp only [List.any_eq_true] at hrest
            exact hrest ⟨x, hx, by simp [hk]⟩
  · rw [if_neg h]
    rw [List.find?_append]
    cases hfind : d.find? (fun p => decide (p.1 = k')) with
    | some p => simp
    | none =>
      simp only [Option.none_or]
      rw [List.find?]
      have hkk : (decide (k = k')) = false := by
        simp only [decide_eq_false_iff_not]
        exact fun hh => hne hh.symm
      simp [hkk, List.find?]

/-! ### A backtracking regular-expression engine (Python `re`, the fragment
used by `parse_sample_info_from_filename`)

`matchesRE r s` returns every way `r` can match a prefix of `s`, as a pair
(named-group captures in group order, unconsumed remainder), listed in
CPython's backtracking priority order (leftmost alternatives first, greedy
repetition longest first).  `re.match(regex + '$', s)` is then the first
entry whose remainder is empty (or a single trailing newline, which `$`
also accepts). -/

/-- Named-group captures of one match attempt. -/
abbrev Caps := List (String × String)

/-- The regex fragment used by the filename templates: literal characters,
`.`, character classes, `\d`, concatenation, greedy `*`, greedy counted
repetition `{lo,hi}` and named groups `(?P<name>...)`. -/
inductive RE where
  | eps
  | ch (c : Char)
  | any
  | cls (cs : List Char)
  | digit
  | seq (a b : RE)
  | star (r : RE)
  | rep (r : RE) (lo hi : Nat)
  | group (name : String) (r : RE)

/-- Python `\d`. -/
def isDigitChar (c : Char) : Bool := ('0' ≤ c) && (c ≤ '9')

/-- Greedy bounded repetition of a matcher: longest (most iterations) first,
requiring at least `lo` iterations, at most `hi`, each consuming at least one
character (all repeated sub-patterns of the filename templates consume). -/
def repMatches (m : List Char → List (Caps × List Char)) :
    Nat → Nat → List Char → List (Caps × List Char)
  | lo, 0, s => if lo = 0 then [([], s)] else []
  | lo, hi + 1, s =>
    let more := (m s).flatMap fun p =>
      if p.2.length < s.length then
        (repMatches m (lo - 1) hi p.2).map fun q => (p.1 ++ q.1, q.2)
      else []
    if lo = 0 then more ++ [([], s)] else more

/-- All prefix matches of `r` against `s` in backtracking priority order. -/
def matchesRE : RE → List Char → List (Caps × List Char)
  | .eps, s => [([], s)]
  | .ch c, s =>
    match s with
    | [] => []
    | x :: rest => if x = c then [([], rest)] else []
  | .any, s =>
    match s with
    | [] => []
    | x :: rest => if x = '\n' then [] else [([], rest)]
  | .cls cs, s =>
    match s with
    | [] => []
    | x :: rest => if x ∈ cs then [([], rest)] else []
  | .digit, s =>
    match s with
    | [] => []
    | x :: rest => if isDigitChar x then [([], rest)] else []
  | .seq a b, s =>
    (matchesRE a s).flatMap fun p => (matchesRE b p.2).map fun q => (p.1 ++ q.1, q.2)
  | .star r, s => repMatches (fun t => matchesRE r t) 0 s.length s
  | .rep r lo hi, s => repMatches (fun t => matchesRE r t) lo hi s
  | .group n r, s =>
    (matchesRE r s).map fun p =>
      (p.1 ++ [(n, String.mk (s.take (s.length - p.2.length)))], p.2)

/-- Python `re.match(regex + '$', s)`: first complete match in priority
order (`$` accepts the end of the string or a lone trailing newline),
returning its named-group captures. -/
def reFullMatch (r : RE) (s : String) : Option Caps :=
  ((matchesRE r s.toList).find? fun p => p.2.isEmpty || p.2 == ['\n']).map Prod.fst

/-- A literal string as a regex (no metacharacters). -/
def litRE (s : String) : RE :=
  s.toList.foldr (fun c r => .seq (.ch c) r) .eps

/-- Python `\d+` (greedy). -/
def digitPlusRE : RE := .seq .digit (.star .digit)

/-- Regex components of `parse_sample_info_from_filename`, one definition per
source string.  `sample_name_re = r'(?P<sample_name>.*)'`. -/
def sample_name_re : RE := .group "sample_name" (.star .any)

/-- `undetermined_sample_name_re = r'(?P<sample_name>.*_Undetermined)'`. -/
def undetermined_sample_name_re : RE :=
  .group "sample_name" (.seq (.star .any) (litRE "_Undetermined"))

/-- `index_re = r'(?P<index>[ATGC-]{6,33})'`. -/
def index_re : RE := .group "index" (.rep (.cls ['A', 'T', 'G', 'C', '-']) 6 33)

/-- `lane_re = r'L0{0,3}(?P<lane>\d+)'`. -/
def lane_re : RE := .seq (.ch 'L') (.seq (.rep (.ch '0') 0 3) (.group "lane" digitPlusRE))

/-- `read_re = r'R(?P<read>\d)'`. -/
def read_re : RE := .seq (.ch 'R') (.group "read" .digit)

/-- `set_number_re = r'(?P<set_number>\d+)'`. -/
def set_number_re : RE := .group "set_number" digitPlusRE

/-- `sample_number_re = r'S(?P<sample_number>\d+)'`. -/
def sample_number_re : RE := .seq (.ch 'S') (.group "sample_number" digitPlusRE)

/-- `r'_'.join(res)`: the component regexes joined by literal underscores. -/
def joinUnderscoreRE : List RE → RE
  | [] => .eps
  | [r] => r
  | r :: rest => .seq r (.seq (.ch '_') (joinUnderscoreRE rest))

/-- `extension_re = r'%s$' % suffix`: the suffix string read as a regex, in
which `.` is the any-character metacharacter and every other character of
the default `'.fastq.gz'` stands for itself (the `$` anchor is applied by
`reFullMatch`). -/
def extension_re (suffix : String) : RE :=
  suffix.toList.foldr (fun c r => .seq (if c = '.' then .any else .ch c) r) .eps

/-! ### `parse_sample_info_from_filename` and `change_dict_types` -/

/-- A value of the field dictionary built from a filename match: Python `str`
before conversion, `int` after. -/
inductive FieldVal where
  | str (s : String)
  | int (n : Nat)
deriving DecidableEq, Repr

/-- Python `int()` applied to a field value; the program only ever applies it
to decimal-digit regex captures (`\d+` / `\d`). -/
def pyInt : FieldVal → FieldVal
  | .str s => .int (digitsToNat s)
  | .int n => .int n

/-- Update every entry of key `k` in the field dictionary (Python
`d[k] = map_fn(d[k])`; captured-group keys are unique). -/
def updateAssoc (d : List (String × FieldVal)) (k : String) (f : FieldVal → FieldVal) :
    List (String × FieldVal) :=
  d.map fun p => if p.1 = k then (p.1, f p.2) else p

/-- The nested helper `change_dict_types` of `parse_sample_info_from_filename`:
apply `map_fn` to each listed key that is present; a listed key that is absent
is skipped when `ignore_missing_keys`, and otherwise raises
`KeyError("%s not found" % k)` (the spec's MissingFieldError). -/
def change_dict_types (d : List (String × FieldVal)) (keys : List String)
    (map_fn : FieldVal → FieldVal) (ignore_missing_keys : Bool) :
    Except String (List (String × FieldVal)) :=
  match keys with
  | [] => .ok d
  | k :: rest =>
    if d.any (fun p => p.1 = k) then
      change_dict_types (updateAssoc d k map_fn) rest map_fn ignore_missing_keys
    else if ignore_missing_keys then
      change_dict_types d rest map_fn ignore_missing_keys
    else .error (k ++ " not found")

/-- The ordered template list `filename_regexes` (after appending
`extension_re`): Undetermined-reads template, then bcl2fastq 2.x
sample-number template, then bcl2fastq 1.8.4 index template. -/
def filename_regexes (suffix : String) : List RE :=
  [joinUnderscoreRE [undetermined_sample_name_re, lane_re, read_re, set_number_re],
   joinUnderscoreRE [sample_name_re, sample_number_re, lane_re, read_re, set_number_re],
   joinUnderscoreRE [sample_name_re, index_re, lane_re, read_re, set_number_re]
  ].map (fun r => .seq r (extension_re suffix))

/-- The numeric field names converted by `parse_sample_info_from_filename`. -/
def numericFieldKeys : List String := ["sample_number", "lane", "read", "set_number"]

/-- Convert the captures of a successful template match to the returned field
dictionary (`d = m.groupdict()` then `change_dict_types(d, [...], int)` with
its default `ignore_missing_keys=True`, which never raises). -/
def convertMatch (caps : Caps) : Option (List (String × FieldVal)) :=
  match change_dict_types (caps.map fun p => (p.1, FieldVal.str p.2))
      numericFieldKeys pyInt true with
  | .ok d => some d
  | .error _ => none

/-- `parse_sample_info_from_filename(filepath, suffix)`: try the templates in
order against the basename of the path, return the converted field dictionary
of the first one that matches the whole filename, else `None`. -/
def parse_sample_info_from_filename (filepath : String) (suffix : String) :
    Option (List (String × FieldVal)) :=
  match (filename_regexes suffix).findSome? (fun r => reFullMatch r (basename filepath)) with
  | some caps => convertMatch caps
  | none => none

/-! ### Samplesheet parsing (`parse_samplesheet`, `filter_samplesheet_by_project`,
`samplesheet_to_dict`) -/

/-- A samplesheet row as indexed by `samplesheet_to_dict`: insertion-ordered
column-to-value dictionary, with `Option String` values (Python `None` for a
column whose value is missing). -/
abbrev Row := List (String × Option String)

/-- A value in a `csv.DictReader` row dictionary: a column's cell (its
string, or `None` for a column missing from a short line), or the list of
surplus values the reader stores under its `None` rest-key for a line longer
than the header. -/
inductive CsvVal where
  | cell (v : Option String)
  | rest (vs : List String)
deriving DecidableEq, Repr

/-- A `csv.DictReader` row: insertion-ordered dictionary keyed by the column
names (`some name`) or by the `None` rest-key. -/
abbrev CsvRow := List (Option String × CsvVal)

/-- The fields `csv.reader` yields for one line of the plain (quote-free,
NUL-free) CSV these sheets use: a blank line gives no fields — also when it
is the header line, so its field-name list is empty — and any other line
splits on commas. -/
def csvFields (l : String) : List String :=
  if chompNL l = "" then [] else pySplitChar (chompNL l) ','

/-- Pair column names with the values of one data line, `csv.DictReader`
style: missing trailing values become `None` (the reader's `restval`), and
surplus values are stored under the `None` rest-key, appended last. -/
def zipRowAux : List String → List String → List (Option String × CsvVal)
  | [], [] => []
  | [], v :: vs => [(none, .rest (v :: vs))]
  | k :: ks, [] => (some k, .cell none) :: zipRowAux ks []
  | k :: ks, v :: vs => (some k, .cell (some v)) :: zipRowAux ks vs

/-- Build the row dictionary (duplicate column labels collapse, last wins,
as in a Python dict). -/
def buildRow (keys : List String) (vals : List String) : CsvRow :=
  (zipRowAux keys vals).foldl (fun acc p => pyDictInsert acc p.1 p.2) []

/-- `csv.DictReader(lines)` on the plain comma-separated content this
program reads: column names from the first line (blank or not), one row per
following non-blank line. -/
def dictReader (lines : List String) : List CsvRow :=
  match lines with
  | [] => []
  | hdr :: rest =>
    (rest.filter (fun l => csvFields l ≠ [])).map
      (fun l => buildRow (csvFields hdr) (csvFields l))

/-- Normalise one row's keys: `{k.replace('_', ''): r[k] for k in r.keys()}`.
On a row holding the reader's `None` rest-key (a data line wider than the
header), `k.replace` is called on `None` and raises `AttributeError`. -/
def standardizeAux : CsvRow → CsvRow → Except String CsvRow
  | [], acc => .ok acc
  | p :: rest, acc =>
    match p.1 with
    | none => .error "AttributeError"
    | some k => standardizeAux rest (pyDictInsert acc (some (stripUnderscores k)) p.2)

/-- Top-level wrapper of the key-normalisation comprehension. -/
def standardizeRow (r : CsvRow) : Except String CsvRow :=
  standardizeAux r []

/-- The standardisation loop of `parse_samplesheet` over all rows: the first
row that raises aborts the call. -/
def mapStdRows : List CsvRow → Except String (List CsvRow)
  | [] => .ok []
  | r :: rs =>
    match standardizeRow r with
    | .error e => .error e
    | .ok r' =>
      match mapStdRows rs with
      | .error e => .error e
      | .ok rs' => .ok (r' :: rs')

/-- The section name of a `[...]`-bracketed line: `l[1:].split(']')[0]`. -/
def bracketName (l : String) : String :=
  (pySplitChar (String.mk l.toList.tail) ']').headD ""

/-- The IEMv4 scanning loop of `parse_samplesheet`: walk the lines tracking
the current section, remember the chemistry from `Assay,` lines seen while in
the `Header` section, and stop at the first line opening the `Data` section,
returning its index; `none` when no such line exists (in Python `data_index`
is then never assigned and the later use raises `UnboundLocalError`). -/
def scanV4Aux : List String → Option String → Option String → Nat →
    Option String × Option Nat
  | [], _, chem, _ => (chem, none)
  | l :: rest, sec, chem, i =>
    let sec' := if pyStartsWith l "[" then some (bracketName l) else sec
    let chem' :=
      if sec' = some "Header" ∧ pyStartsWith l "Assay," then
        some (pyStrip ((pySplitChar l ',').getD 1 ""))
      else chem
    if sec' = some "Data" then (chem', some i)
    else scanV4Aux rest sec' chem' (i + 1)

/-- `parse_samplesheet(file_path, standardize_keys)` on the file's content.
IEMv4 (first line contains `[Header]`): rows come from the lines after the
`[Data]` marker, keys optionally underscore-normalised (which raises
`AttributeError` on a row carrying the `None` rest-key), chemistry from the
`Assay,` line of the `[Header]` section; no `[Data]` line raises.  Legacy
CSV: every line is a row, the last row is the chemistry sentinel and is
dropped; an empty row set raises (`samples[-1:][0]`), as does an empty file
(`lines[0]`). -/
def parse_samplesheet (content : String) (standardize_keys : Bool) :
    Except String (List CsvRow × Option String) :=
  let lines := readlinesU content
  match lines with
  | [] => .error "IndexError"
  | l0 :: _ =>
    if containsSub "[Header]" l0 then
      match scanV4Aux lines none none 0 with
      | (_, none) => .error "UnboundLocalError"
      | (chem, some di) =>
        if standardize_keys then
          match mapStdRows (dictReader (lines.drop (di + 1))) with
          | .error e => .error e
          | .ok samples => .ok (samples, chem)
        else .ok (dictReader (lines.drop (di + 1)), chem)
    else
      let samples := dictReader lines
      match samples.getLast? with
      | none => .error "IndexError"
      | some last =>
        let chem :=
          match lookupP last (some "FCID") with
          | some (.cell (some v)) => some (pyStrip ((pySplitChar v '_').getLastD ""))
          | _ => none
        .ok (samples.dropLast, chem)

/-- The `[Data]`-skipping prologue of `filter_samplesheet_by_project`: from
the stripped first line, if it contains `[Header]` keep reading until a line
contains `[Data]`, then the stripped next line is the header; at end of file
`readline()` returns `''` forever and the `while` loop never terminates
(`none`). -/
def skipToData (cur : String) (rest : List String) : Option (String × List String) :=
  if containsSub "[Data]" cur then some (pyStrip (rest.headD ""), rest.tail)
  else
    match rest with
    | [] => none
    | l :: rs => skipToData l rs

/-- Header line and remaining data lines seen by
`filter_samplesheet_by_project`. -/
def headerAndBody (lines : List String) : Option (String × List String) :=
  let header0 := pyStrip (lines.headD "")
  if containsSub "[Header]" header0 then skipToData header0 lines.tail
  else some (header0, lines.tail)

/-- The row loop of `filter_samplesheet_by_project`: keep lines whose
project column equals `proj_id` or which start with `#`, stripped and
re-terminated with `\r\n`; a line with too few columns raises `IndexError`
(the subscript is evaluated before the comment test). -/
def filterLoop (pci : Nat) (proj_id : String) :
    List String → List String → Except String (List String)
  | [], acc => .ok acc
  | l :: rest, acc =>
    match (pySplitChar (pyStrip l) ',').get? pci with
    | none => .error "IndexError"
    | some v =>
      if v = proj_id ∨ pyStartsWith l "#" then
        filterLoop pci proj_id rest (acc ++ [pyStrip l ++ "\r\n"])
      else filterLoop pci proj_id rest acc

/-- `filter_samplesheet_by_project(file_path, proj_id, project_column_label)`
on the file's content: emit the (stripped) header line and the matching or
comment data rows, each re-terminated with `\r\n`; the project column is
located in the underscore-normalised header. -/
def filter_samplesheet_by_project (content proj_id project_column_label : String) :
    Except String (List String) :=
  match headerAndBody (readlinesU content) with
  | none => .error "InfiniteLoop"
  | some (header, body) =>
    match listIndex? ((pySplitChar header ',').map stripUnderscores)
        project_column_label with
    | none => .error "ValueError"
    | some pci => filterLoop pci proj_id body [header ++ "\r\n"]

/-- `samplesheet_to_dict(samplesheet_rows, key)`: index the rows by the value
of the key field, removing that field from each stored row; a row without the
key field raises `KeyError`; rows sharing a key value silently overwrite
(CPython dict assignment), last one winning. -/
def std_aux (key : String) : List Row → List (Option String × Row) →
    Except String (List (Option String × Row))
  | [], d => .ok d
  | r :: rest, d =>
    match lookupP r key with
    | none => .error "KeyError"
    | some sid => std_aux key rest (pyDictInsert d sid (r.filter (fun p => p.1 ≠ key)))

/-- Top-level wrapper of the `samplesheet_to_dict` loop. -/
def samplesheet_to_dict (samplesheet_rows : List Row) (key : String) :
    Except String (List (Option String × Row)) :=
  std_aux key samplesheet_rows []

/-! ### `rta_complete_parser` -/

/-- Stand-in for `dateutil.parser.parse` (external library): the timestamp is
represented by the exact `"%s %s" % (day, time)` string handed to it. -/
def pyDateParse (s : String) : String := s

/-- The RTA-2.x branch of `rta_complete_parser`: split on the literal
`' completed on '`, version before it, day and time from the text after. -/
def rtaFormatNew (line : String) : Except String (String × String) :=
  match pySplitOnSub line " completed on " with
  | version :: dt :: _ =>
    match pySplitFirstChar dt ' ' with
    | some (day, time) => .ok (pyDateParse (day ++ " " ++ time), version)
    | none => .error "ValueError"
  | _ => .error "IndexError"

/-- The RTA-1.x branch of `rta_complete_parser`:
`day, time, version = line.split(',')`. -/
def rtaFormatOld (line : String) : Except String (String × String) :=
  match pySplitChar line ',' with
  | [day, time, version] => .ok (pyDateParse (day ++ " " ++ time), version)
  | _ => .error "ValueError"

/-- `rta_complete_parser(run_path)` applied to the first line of
`RTAComplete.txt`: dispatch on whether the line starts with `RTA`, return the
(timestamp, version) pair. -/
def rta_complete_parser_model (line : String) : Except String (String × String) :=
  if pyStartsWith line "RTA" then rtaFormatNew line else rtaFormatOld line

/-! ### `get_demultiplexer_info` -/

/-- Version info dictionary returned by `get_demultiplexer_info`.
`commandline_options` is `some ""` initially (the empty string the dict is
seeded with) and `none` where Python assigns `None`. -/
structure VersionInfo where
  version : String
  version_number : String
  commandline_options : Option String
deriving DecidableEq, Repr

/-- The `Software` attributes read from `DemultiplexConfig.xml` when that
file exists. -/
structure DemuxSoftware where
  Version : String
  CmdAndArgs : String

/-- Tier 1 of `get_demultiplexer_info`: parse `DemultiplexConfig.xml`
(hyphens of the version become spaces, the executable name is cut off the
command line, the version number is the second word with a leading `v`
stripped); malformed attributes raise `IndexError`. -/
def demuxTier1 (sw : DemuxSoftware) : Except String VersionInfo :=
  let version := String.mk (sw.Version.toList.map (fun c => if c = '-' then ' ' else c))
  match pySplitFirstChar sw.CmdAndArgs ' ' with
  | none => .error "IndexError"
  | some (_, cmdline) =>
    match (pyWsSplit version).get? 1 with
    | none => .error "IndexError"
    | some vn => .ok ⟨version, pyLstripChar vn 'v', some cmdline⟩

/-- Tier 2 of `get_demultiplexer_info`: the captured output lines of
`/usr/local/bin/bcl2fastq --version`; a `CalledProcessError` (missing binary,
non-zero exit) is swallowed, leaving the seeded empty dict; unexpected output
is ignored the same way. -/
def demuxTier2 (out : Except Unit (List String)) : Except String VersionInfo :=
  match out with
  | .error _ => .ok ⟨"", "", some ""⟩
  | .ok lines =>
    if 2 ≤ lines.length ∧ containsSub "bcl2fastq" (lines.getD 1 "") then
      let version := pyStrip (lines.getD 1 "")
      match (pyWsSplit version).get? 1 with
      | none => .error "IndexError"
      | some vn => .ok ⟨version, pyLstripChar vn 'v', none⟩
    else .ok ⟨"", "", some ""⟩

/-- Tier 3 of `get_demultiplexer_info`: when no version was determined,
guess from the top-level directory listing — any `Project_`-prefixed entry
means bcl2fastq 1.x, otherwise 2.x. -/
def demuxTier3 (vi : VersionInfo) (listing : List String) : VersionInfo :=
  if vi.version = "" then
    if listing.any (fun d => pyStartsWith d "Project_") then
      { vi with version := "bcl2fastq 1.0unknown", version_number := "1.0unknown" }
    else
      { vi with version := "bcl2fastq 2.0unknown", version_number := "2.0unknown" }
  else vi

/-- `get_demultiplexer_info(demultiplexed_output_path)`, with its three
filesystem/process observations as arguments: the parsed
`DemultiplexConfig.xml` if that file exists, the result of running the
installed `bcl2fastq --version`, and `os.listdir` of the output path. -/
def get_demultiplexer_info (config : Option DemuxSoftware)
    (bcl2fastqOut : Except Unit (List String)) (listing : List String) :
    Except String VersionInfo :=
  let vi0 : Except String VersionInfo :=
    match config with
    | some sw => demuxTier1 sw
    | none => demuxTier2 bcl2fastqOut
  match vi0 with
  | .error e => .error e
  | .ok vi => .ok (demuxTier3 vi listing)

/-! ### `get_sample_project_mapping` -/

/-- `fn.lstrip('/').lstrip('\\')` applied to each walked path. -/
def lstripSlashes (s : String) : String :=
  String.mk ((s.toList.dropWhile (· = '/')).dropWhile (· = '\\'))

/-- `pathlib2.Path(p).parts` for the relative POSIX paths in play: the
non-empty segments between `/`, with `.` segments dropped. -/
def pathParts (p : String) : List String :=
  (pySplitChar p '/').filter (fun s => s ≠ "" ∧ s ≠ ".")

/-- The project classification of one file path in the loop body of
`get_sample_project_mapping`: depth 3 is project/sample/file, depth 2
project/file, depth 1 bare file with empty project, any other depth keeps the
initial empty project and whole-path `fqfile`; a filename containing
`Undetermined` is forced into the `Undetermined_indices` project when
`catch_undetermined` is set. -/
def classifyProject (catch_undetermined : Bool) (fqpath : String) : String :=
  let parts := pathParts fqpath
  let pf : String × String :=
    if parts.length = 3 then (parts.getD 0 "", parts.getD 2 "")
    else if parts.length = 2 then (parts.getD 0 "", parts.getD 1 "")
    else if parts.length = 1 then ("", parts.getD 0 "")
    else ("", fqpath)
  if catch_undetermined ∧ containsSub "Undetermined" pf.2 then "Undetermined_indices"
  else pf.1

/-- Append a file under its project in the insertion-ordered mapping,
creating the project's entry on first encounter. -/
def addToMapping (m : List (String × List String)) (proj path : String) :
    List (String × List String) :=
  if m.any (fun p => p.1 = proj) then
    m.map (fun p => if p.1 = proj then (p.1, p.2 ++ [path]) else p)
  else m ++ [(proj, [path])]

/-- Code-point lexicographic comparison of character lists: Python's string
ordering (a proper prefix precedes, otherwise the first differing code point
decides). -/
def strLeb : List Char → List Char → Bool
  | [], _ => true
  | _ :: _, [] => false
  | a :: as, b :: bs =>
    if a.toNat < b.toNat then true
    else if b.toNat < a.toNat then false
    else strLeb as bs

/-- Python `s <= t` on strings (the order used by `sorted`). -/
def pyStrLe (s t : String) : Prop := strLeb s.toList t.toList = true

instance : DecidableRel pyStrLe := fun s t => by
  unfold pyStrLe
  infer_instance

theorem strLeb_total : ∀ a b : List Char, strLeb a b = true ∨ strLeb b a = true := by
  intro a
  induction a with
  | nil => intro b; exact Or.inl rfl
  | cons x as ih =>
    intro b
    cases b with
    | nil => exact Or.inr rfl
    | cons y bs =>
      simp only [strLeb]
      by_cases h1 : x.toNat < y.toNat
      · left; rw [if_pos h1]
      · by_cases h2 : y.toNat < x.toNat
        · right; rw [if_pos h2]
        · rw [if_neg h1, if_neg h2, if_neg h2, if_neg h1]
          exact ih bs

theorem strLeb_trans :
    ∀ a b c : List Char, strLeb a b = true → strLeb b c = true → strLeb a c = true := by
  intro a
  induction a with
  | nil => intro b c _ _; rfl
  | cons x as ih =>
    intro b c hab hbc
    cases b with
    | nil => simp [strLeb] at hab
    | cons y bs =>
      cases c with
      | nil => simp [strLeb] at hbc
      | cons z cs =>
        simp only [strLeb] at hab hbc ⊢
        by_cases hxy : x.toNat < y.toNat
        · by_cases hyz : y.toNat < z.toNat
          · rw [if_pos (show x.toNat < z.toNat by omega)]
          · by_cases hzy : z.toNat < y.toNat
            · rw [if_neg hyz, if_pos hzy] at hbc
              exact absurd hbc (by simp)
            · rw [if_pos (show x.toNat < z.toNat by omega)]
        · by_cases hyx : y.toNat < x.toNat
          · rw [if_neg hxy, if_pos hyx] at hab
            exact absurd hab (by simp)
          · rw [if_neg hxy, if_neg hyx] at hab
            by_cases hyz : y.toNat < z.toNat
            · rw [if_pos (show x.toNat < z.toNat by omega)]
            · by_cases hzy : z.toNat < y.toNat
              · rw [if_neg hyz, if_pos hzy] at hbc
                exact absurd hbc (by simp)
              · rw [if_neg hyz, if_neg hzy] at hbc
                rw [if_neg (show ¬ x.toNat < z.toNat by omega),
                  if_neg (show ¬ z.toNat < x.toNat by omega)]
                exact ih bs cs hab hbc

theorem strLeb_antisymm :
    ∀ a b : List Char, strLeb a b = true → strLeb b a = true → a = b := by
  intro a
  induction a with
  | nil =>
    intro b _ hba
    cases b with
    | nil => rfl
    | cons y bs => simp [strLeb] at hba
  | cons x as ih =>
    intro b hab hba
    cases b with
    | nil => simp [strLeb] at hab
    | cons y bs =>
      simp only [strLeb] at hab hba
      by_cases hxy : x.toNat < y.toNat
      · rw [if_neg (show ¬ y.toNat < x.toNat by omega), if_pos hxy] at hba
        exact absurd hba (by simp)
      · by_cases hyx : y.toNat < x.toNat
        · rw [if_neg hxy, if_pos hyx] at hab
          exact absurd hab (by simp)
        · rw [if_neg hxy, if_neg hyx] at hab
          rw [if_neg hyx, if_neg hxy] at hba
          have hchar : x = y := by
            have hn : x.toNat = y.toNat := by omega
            rw [← Char.ofNat_toNat x, ← Char.ofNat_toNat y, hn]
          rw [hchar, ih bs hab hba]

instance : IsTotal String pyStrLe := ⟨fun s t => strLeb_total s.toList t.toList⟩

instance : IsTrans String pyStrLe :=
  ⟨fun s t u hab hbc => strLeb_trans s.toList t.toList u.toList hab hbc⟩

instance : IsAntisymm String pyStrLe :=
  ⟨fun s t hab hba => congrArg String.mk (strLeb_antisymm s.toList t.toList hab hba)⟩

/-- Python `sorted` on strings: code-point lexicographic; `sorted` is a
stable sort, and on a total order any two sorts of the same multiset agree,
so insertion sort is faithful. -/
def sortStrings (l : List String) : List String :=
  l.insertionSort pyStrLe

/-- Python `os.path.join(basepath, fqpath)` for the paths in play. -/
def pyJoin (a b : String) : String :=
  if pyStartsWith b "/" then b
  else if a = "" ∨ a.toList.getLast? = some '/' then a ++ b
  else a ++ "/" ++ b

/-- The fold of the classification loop over the sorted file list. -/
def mappingFold (catch_undetermined : Bool) (basepath : String)
    (absolute_paths : Bool) (files : List String) : List (String × List String) :=
  files.foldl
    (fun m fqpath =>
      addToMapping m (classifyProject catch_undetermined fqpath)
        (if absolute_paths then pyJoin basepath fqpath else fqpath))
    []

/-- `get_sample_project_mapping(basepath, suffix=..., absolute_paths=...,
catch_undetermined=...)`, with the filesystem walk supplied as the (order
unspecified) list of file names it yields: keep names containing the suffix,
strip leading slashes, sort, then classify into the ordered project mapping. -/
def get_sample_project_mapping (basepath : String) (walked : List String)
    (suffix : String) (absolute_paths : Bool) (catch_undetermined : Bool) :
    List (String × List String) :=
  mappingFold catch_undetermined basepath absolute_paths
    (sortStrings ((walked.filter (fun fn => containsSub suffix fn)).map lstripSlashes))

/-! ### Supporting lemmas -/

/-- Did the embedded Python call return normally? -/
def exIsOk {ε α : Type} : Except ε α → Bool
  | .ok _ => true
  | .error _ => false

instance {ε α : Type} [DecidableEq ε] [DecidableEq α] : DecidableEq (Except ε α) :=
  fun x y =>
    match x, y with
    | .ok a, .ok b =>
      if h : a = b then .isTrue (by rw [h])
      else .isFalse (by intro hc; cases hc; exact h rfl)
    | .ok _, .error _ => .isFalse (by intro hc; cases hc)
    | .error _, .ok _ => .isFalse (by intro hc; cases hc)
    | .error e, .error f =>
      if h : e = f then .isTrue (by rw [h])
      else .isFalse (by intro hc; cases hc; exact h rfl)

theorem lookupP_eq_none_iff {κ β : Type} [DecidableEq κ] (d : List (κ × β)) (k : κ) :
    lookupP d k = none ↔ d.any (fun p => p.1 = k) = false := by
  unfold lookupP
  rw [Option.map_eq_none', List.find?_eq_none, List.any_eq_false]

/-! ### Claim C7: run-completion log parsing -/

/-- C7: `rta_complete_parser` decides the completion-log format solely by
whether the line begins with `RTA`, returning a (timestamp, version) pair in
both formats; the RTA-2.x sample line yields version exactly `"RTA 2.7.3"`
and the RTA-1.x sample line yields version exactly `"Illumina RTA 1.17.20"`. -/
theorem rta_complete_format_detection :
    (∀ line : String, pyStartsWith line "RTA" = true →
      rta_complete_parser_model line = rtaFormatNew line)
    ∧ (∀ line : String, pyStartsWith line "RTA" = false →
      rta_complete_parser_model line = rtaFormatOld line)
    ∧ rta_complete_parser_model "RTA 2.7.3 completed on 3/25/2016 3:31:22 AM" =
        .ok ("3/25/2016 3:31:22 AM", "RTA 2.7.3")
    ∧ rta_complete_parser_model "6/11/2014,20:00:49.935,Illumina RTA 1.17.20" =
        .ok ("6/11/2014 20:00:49.935", "Illumina RTA 1.17.20") := by
  refine ⟨fun line h => ?_, fun line h => ?_, by decide, by decide⟩
  · simp [rta_complete_parser_model, h]
  · simp [rta_complete_parser_model, h]

/-- Witness for C7 at the two concrete formats. -/
theorem rta_complete_format_detection_witness :
    rta_complete_parser_model "RTA 2.7.3 completed on 3/25/2016 3:31:22 AM" =
      rtaFormatNew "RTA 2.7.3 completed on 3/25/2016 3:31:22 AM" ∧
    rta_complete_parser_model "6/11/2014,20:00:49.935,Illumina RTA 1.17.20" =
      rtaFormatOld "6/11/2014,20:00:49.935,Illumina RTA 1.17.20" :=
  ⟨rta_complete_format_detection.1 _ (by decide),
   rta_complete_format_detection.2.1 _ (by decide)⟩

/-! ### Claim C6: demultiplexer identification, tier-3 fallback -/

/-- C6: with no `DemultiplexConfig.xml` and a failing/missing installed
binary, `get_demultiplexer_info` does not raise: it returns version
`"bcl2fastq 1.0unknown"` (number `"1.0unknown"`) when some top-level
directory starts with `Project_`, and `"bcl2fastq 2.0unknown"` (number
`"2.0unknown"`) otherwise, with no command line. -/
theorem get_demultiplexer_info_tier3_fallback :
    ∀ listing : List String,
      get_demultiplexer_info none (.error ()) listing =
        .ok (if listing.any (fun d => pyStartsWith d "Project_") then
              ⟨"bcl2fastq 1.0unknown", "1.0unknown", some ""⟩
            else ⟨"bcl2fastq 2.0unknown", "2.0unknown", some ""⟩) := by
  intro listing
  by_cases h : listing.any (fun d => pyStartsWith d "Project_")
  · simp [get_demultiplexer_info, demuxTier2, demuxTier3, h]
  · simp [get_demultiplexer_info, demuxTier2, demuxTier3, h]

/-! ### Claim C2: duplicate sample identifiers are not an error -/

/-- C2 counterexample: two rows share the `SampleID` value `"A"`, yet
`samplesheet_to_dict` returns normally, keeping only the second row — the
claimed `DuplicateKeyError` does not exist and the duplicate is silently
overwritten. -/
theorem samplesheet_to_dict_duplicate_not_an_error :
    samplesheet_to_dict
        [[("SampleID", some "A"), ("x", some "1")],
         [("SampleID", some "A"), ("x", some "2")]] "SampleID" =
      .ok [(some "A", [("x", some "2")])] := by decide

theorem std_aux_isOk (key : String) :
    ∀ (rows : List Row) (d : List (Option String × Row)),
      exIsOk (std_aux key rows d) = rows.all (fun r => r.any (fun p => p.1 = key)) := by
  intro rows
  induction rows with
  | nil => intro d; rfl
  | cons r rest ih =>
    intro d
    rw [std_aux]
    cases hl : lookupP r key with
    | none =>
      have : r.any (fun p => p.1 = key) = false := (lookupP_eq_none_iff r key).mp hl
      simp [exIsOk, List.all_cons, this]
    | some sid =>
      have hany : r.any (fun p => p.1 = key) = true := by
        cases hA : r.any (fun p => p.1 = key) with
        | false =>
          rw [(lookupP_eq_none_iff r key).mpr hA] at hl
          exact Option.noConfusion hl
        | true => rfl
      simp only [List.all_cons, hany, Bool.true_and]
      exact ih _

theorem std_aux_lookup (key : String) :
    ∀ (rows : List Row) (d : List (Option String × Row))
      (out : List (Option String × Row)) (sid : Option String),
      std_aux key rows d = .ok out →
      lookupP out sid =
        match (rows.filter (fun r => lookupP r key = some sid)).getLast? with
        | some r => some (r.filter (fun p => p.1 ≠ key))
        | none => lookupP d sid := by
  intro rows
  induction rows with
  | nil =>
    intro d out sid h
    cases h
    rfl
  | cons r rest ih =>
    intro d out sid h
    rw [std_aux] at h
    cases hl : lookupP r key with
    | none => rw [hl] at h; exact absurd h (by simp)
    | some sid' =>
      rw [hl] at h
      have hrec := ih _ out sid h
      by_cases hsid : sid' = sid
      · subst hsid
        have hfil : (r :: rest).filter (fun r => lookupP r key = some sid') =
            r :: rest.filter (fun r => lookupP r key = some sid') := by
          simp [List.filter_cons, hl]
        rw [hfil]
        cases hrf : rest.filter (fun r => lookupP r key = some sid') with
        | nil =>
          rw [hrf] at hrec
          exact hrec.trans (lookupP_insert_same d sid' (r.filter (fun p => p.1 ≠ key)))
        | cons a as =>
          rw [hrf] at hrec
          rw [List.getLast?_cons_cons]
          exact hrec
      · have hfil : (r :: rest).filter (fun r => lookupP r key = some sid) =
            rest.filter (fun r => lookupP r key = some sid) := by
          simp [List.filter_cons, hl, hsid]
        rw [hfil]
        cases hrf : rest.filter (fun r => lookupP r key = some sid) with
        | nil =>
          rw [hrf] at hrec
          exact hrec.trans (lookupP_insert_other d sid' sid _ (Ne.symm hsid))
        | cons a as =>
          rw [hrf] at hrec
          exact hrec

/-- C2 amended: `samplesheet_to_dict` succeeds exactly when every row carries
the key field (there is no duplicate-key failure at all); on success the
entry stored under an identifier is the **last** row with that identifier,
with the key field removed — duplicates are silently overwritten,
last write wins. -/
theorem samplesheet_to_dict_last_write_wins :
    ∀ (rows : List Row) (key : String),
      (exIsOk (samplesheet_to_dict rows key) =
        rows.all (fun r => r.any (fun p => p.1 = key)))
      ∧ ∀ (d : List (Option String × Row)) (sid : Option String),
          samplesheet_to_dict rows key = .ok d →
          lookupP d sid =
            ((rows.filter (fun r => lookupP r key = some sid)).getLast?).map
              (fun r => r.filter (fun p => p.1 ≠ key)) := by
  intro rows key
  refine ⟨std_aux_isOk key rows [], fun d sid h => ?_⟩
  have := std_aux_lookup key rows [] d sid h
  rw [this]
  cases (rows.filter (fun r => lookupP r key = some sid)).getLast? with
  | none => rfl
  | some r => rfl

/-- Witness for C2's amended theorem at a concrete one-row sheet. -/
theorem samplesheet_to_dict_last_write_wins_witness :
    lookupP [(some "B", [("x", some "9")])] (some "B") = some [("x", some "9")] := by
  have h := (samplesheet_to_dict_last_write_wins
      [[("SampleID", some "B"), ("x", some "9")]] "SampleID").2
      [(some "B", [("x", some "9")])] (some "B") (by decide)
  exact h.trans (by decide)

/-! ### Claim C4: when `parse_samplesheet` fails -/

/-- C4 counterexample: a non-empty legacy (non-`[Header]`) sheet consisting
of a header line and no data rows makes `parse_samplesheet` fail too
(`samples[-1:][0]` raises), so the claimed "exactly two" failure situations
are three. -/
theorem parse_samplesheet_fails_on_headerless_legacy :
    parse_samplesheet "FCID,Lane\n" true = .error "IndexError"
    ∧ ("FCID,Lane\n" : String) ≠ ""
    ∧ containsSub "[Header]" "FCID,Lane\n" = false :=
  ⟨by decide, by decide, by decide⟩

theorem standardizeAux_isOk :
    ∀ (r acc : CsvRow),
      exIsOk (standardizeAux r acc) = !(r.any (fun p => p.1 = none)) := by
  intro r
  induction r with
  | nil => intro acc; rfl
  | cons p rest ih =>
    intro acc
    cases hp : p.1 with
    | none =>
      rw [standardizeAux, hp]
      simp [exIsOk, hp]
    | some k =>
      have h1 : standardizeAux (p :: rest) acc
          = standardizeAux rest (pyDictInsert acc (some (stripUnderscores k)) p.2) := by
        rw [standardizeAux, hp]
      rw [h1, ih]
      simp [hp]

theorem mapStdRows_isOk :
    ∀ rows : List CsvRow,
      exIsOk (mapStdRows rows)
        = !(rows.any (fun r => r.any (fun p => p.1 = none))) := by
  intro rows
  induction rows with
  | nil => rfl
  | cons r rs ih =>
    rw [mapStdRows]
    cases hr : standardizeRow r with
    | error e =>
      have hbad : r.any (fun p => p.1 = none) = true := by
        have := standardizeAux_isOk r []
        rw [show standardizeAux r [] = standardizeRow r from rfl, hr] at this
        simpa [exIsOk] using this
      simp [exIsOk, hbad]
    | ok r' =>
      have hgood : r.any (fun p => p.1 = none) = false := by
        have := standardizeAux_isOk r []
        rw [show standardizeAux r [] = standardizeRow r from rfl, hr] at this
        simpa [exIsOk] using this
      cases hm : mapStdRows rs with
      | error e =>
        rw [hm] at ih
        simp [exIsOk, hgood] at ih ⊢
        simpa [exIsOk] using ih
      | ok rs' =>
        rw [hm] at ih
        simp [exIsOk, hgood] at ih ⊢
        simpa [exIsOk] using ih

/-- C4 amended: on the plain, quote-free and NUL-free CSV these sheets use
(the fragment of `csv` the reader embedding models), `parse_samplesheet`
fails in exactly four situations — an empty file; an IEMv4 file (first line
containing `[Header]`) with no `[Data]` section line; an IEMv4 file parsed
with `standardize_keys` in which some data row is wider than its header
(`csv.DictReader` files the surplus under its `None` rest-key and key
standardisation raises `AttributeError` on it); and a legacy file whose
data-row set is empty.  In each case the failure is an uncaught exception
propagated to the caller. -/
theorem parse_samplesheet_failure_characterization :
    ∀ (content : String) (sk : Bool),
      containsSub "\"" content = false →
      containsSub "\x00" content = false →
      (exIsOk (parse_samplesheet content sk) = false ↔
        (readlinesU content = []
          ∨ (containsSub "[Header]" ((readlinesU content).headD "") = true
              ∧ (scanV4Aux (readlinesU content) none none 0).2 = none)
          ∨ (∃ di, containsSub "[Header]" ((readlinesU content).headD "") = true
              ∧ (scanV4Aux (readlinesU content) none none 0).2 = some di
              ∧ sk = true
              ∧ (dictReader ((readlinesU content).drop (di + 1))).any
                  (fun r => r.any (fun p => p.1 = none)) = true)
          ∨ (containsSub "[Header]" ((readlinesU content).headD "") = false
              ∧ dictReader (readlinesU content) = []))) := by
  intro content sk _hq _hn
  unfold parse_samplesheet
  cases hlines : readlinesU content with
  | nil => simp [exIsOk]
  | cons l0 rest =>
    simp only [List.headD_cons]
    by_cases hv4 : containsSub "[Header]" l0 = true
    · rw [if_pos hv4]
      cases hscan : scanV4Aux (l0 :: rest) none none 0 with
      | mk chem dio =>
        cases dio with
        | none => simp [exIsOk, hv4]
        | some di =>
          cases sk with
          | false => simp [exIsOk, hv4]
          | true =>
            cases hm : mapStdRows (dictReader ((l0 :: rest).drop (di + 1))) with
            | error e =>
              have hbad : (dictReader ((l0 :: rest).drop (di + 1))).any
                  (fun r => r.any (fun p => p.1 = none)) = true := by
                have := mapStdRows_isOk (dictReader ((l0 :: rest).drop (di + 1)))
                rw [hm] at this
                simpa [exIsOk] using this
              rw [List.drop_succ_cons] at hm hbad
              simp [exIsOk, hv4, hm]
              simp only [List.any_eq_true, decide_eq_true_eq] at hbad
              obtain ⟨r, hr, hrb⟩ := hbad
              obtain ⟨p, hp, hpn⟩ := hrb
              exact ⟨r, hr, p.2, by rw [← hpn]; exact hp⟩
            | ok samples =>
              have hgood : (dictReader ((l0 :: rest).drop (di + 1))).any
                  (fun r => r.any (fun p => p.1 = none)) = false := by
                have := mapStdRows_isOk (dictReader ((l0 :: rest).drop (di + 1)))
                rw [hm] at this
                simpa [exIsOk] using this
              rw [List.drop_succ_cons] at hm hgood
              simp [exIsOk, hv4, hm]
              rw [List.any_eq_false] at hgood
              intro x hx v hv
              refine hgood x hx ?_
              rw [List.any_eq_true]
              exact ⟨(none, v), hv, by simp⟩
    · rw [if_neg hv4]
      cases hlast : (dictReader (l0 :: rest)).getLast? with
      | none =>
        have : dictReader (l0 :: rest) = [] := by
          cases hdr : dictReader (l0 :: rest) with
          | nil => rfl
          | cons a as =>
            rw [hdr] at hlast
            rcases List.getLast?_eq_none_iff.mp hlast with h
            exact absurd h (by simp)
        simp [exIsOk, hv4, this]
      | some last =>
        have hne : dictReader (l0 :: rest) ≠ [] := by
          intro hc
          rw [hc] at hlast
          exact Option.noConfusion hlast
        simp [exIsOk, hv4, hne]

/-- Witness for C4's amended characterisation at an IEMv4 sheet whose data
row is wider than its header: standardisation fails. -/
theorem parse_samplesheet_failure_characterization_witness :
    exIsOk (parse_samplesheet "[Header]\n[Data]\nA,B\n1,2,3\n" true) = false :=
  (parse_samplesheet_failure_characterization "[Header]\n[Data]\nA,B\n1,2,3\n" true
      (by decide) (by decide)).mpr
    (Or.inr (Or.inr (Or.inl ⟨1, by decide, by decide, rfl, by decide⟩)))

/-! ### Claim C9: paths deeper than three segments -/

/-- C9: a matched relative path with more than three segments is assigned to
the empty-string project (or to `Undetermined_indices` when the override
applies — tested against the whole path, since `fqfile` keeps the full
path at this depth), and the whole multi-segment path is appended as the
entry; deep paths are neither rejected nor classified by directory. -/
theorem deep_paths_keep_whole_path :
    ∀ (cu : Bool) (p : String), 3 < (pathParts p).length →
      (classifyProject cu p =
        (if cu ∧ containsSub "Undetermined" p then "Undetermined_indices" else ""))
      ∧ ∀ sfx : String, containsSub sfx p = true → lstripSlashes p = p →
          get_sample_project_mapping "" [p] sfx false cu =
            [(classifyProject cu p, [p])] := by
  intro cu p hdeep
  constructor
  · unfold classifyProject
    have h3 : ¬ (pathParts p).length = 3 := by omega
    have h2 : ¬ (pathParts p).length = 2 := by omega
    have h1 : ¬ (pathParts p).length = 1 := by omega
    simp only [h3, h2, h1, if_false]
  · intro sfx hs hl
    simp [get_sample_project_mapping, sortStrings, mappingFold, addToMapping,
      hs, hl, List.insertionSort]

/-- Witness for C9 at a five-segment path. -/
theorem deep_paths_keep_whole_path_witness :
    get_sample_project_mapping "" ["a/b/c/d/e.fastq.gz"] ".fastq.gz" false true =
      [("", ["a/b/c/d/e.fastq.gz"])] := by
  have h := (deep_paths_keep_whole_path true "a/b/c/d/e.fastq.gz" (by decide)).2
      ".fastq.gz" (by decide) (by decide)
  exact h.trans (by decide)

/-! ### Engine lemmas: named groups and captures -/

/-- The named groups of a regex, in capture-list order (a group's own entry
follows its body's captures, matching the engine). -/
def groupNames : RE → List String
  | .eps => []
  | .ch _ => []
  | .any => []
  | .cls _ => []
  | .digit => []
  | .seq a b => groupNames a ++ groupNames b
  | .star r => groupNames r
  | .rep r _ _ => groupNames r
  | .group n r => groupNames r ++ [n]

/-- No named group occurs under a repetition operator (true of every
filename-template component; it makes the capture list of a match carry each
group name exactly once). -/
def repGroupFree : RE → Bool
  | .eps => true
  | .ch _ => true
  | .any => true
  | .cls _ => true
  | .digit => true
  | .seq a b => repGroupFree a && repGroupFree b
  | .star r => (groupNames r).isEmpty && repGroupFree r
  | .rep r _ _ => (groupNames r).isEmpty && repGroupFree r
  | .group _ r => repGroupFree r

theorem repMatches_caps_nil (m : List Char → List (Caps × List Char))
    (hm : ∀ s p, p ∈ m s → p.1 = ([] : Caps)) :
    ∀ (hi lo : Nat) (s : List Char) (p : Caps × List Char),
      p ∈ repMatches m lo hi s → p.1 = [] := by
  intro hi
  induction hi with
  | zero =>
    intro lo s p hp
    simp only [repMatches] at hp
    split at hp
    · simp only [List.mem_singleton] at hp
      rw [hp]
    · simp at hp
  | succ hi ih =>
    intro lo s p hp
    simp only [repMatches] at hp
    have hmore : p ∈ (m s).flatMap (fun q =>
        if q.2.length < s.length then
          (repMatches m (lo - 1) hi q.2).map fun r => (q.1 ++ r.1, r.2)
        else []) → p.1 = [] := by
      intro hmem
      rw [List.mem_flatMap] at hmem
      obtain ⟨q, hq, hp2⟩ := hmem
      split at hp2
      · rw [List.mem_map] at hp2
        obtain ⟨r, hr, hpr⟩ := hp2
        rw [← hpr]
        simp [hm s q hq, ih (lo - 1) q.2 r hr]
      · simp at hp2
    split at hp
    · rw [List.mem_append] at hp
      rcases hp with hp | hp
      · exact hmore hp
      · simp only [List.mem_singleton] at hp
        rw [hp]
    · exact hmore hp

theorem repMatches_suffix (m : List Char → List (Caps × List Char))
    (hm : ∀ s p, p ∈ m s → p.2 <:+ s) :
    ∀ (hi lo : Nat) (s : List Char) (p : Caps × List Char),
      p ∈ repMatches m lo hi s → p.2 <:+ s := by
  intro hi
  induction hi with
  | zero =>
    intro lo s p hp
    simp only [repMatches] at hp
    split at hp
    · simp only [List.mem_singleton] at hp
      rw [hp]
    · simp at hp
  | succ hi ih =>
    intro lo s p hp
    simp only [repMatches] at hp
    have hmore : p ∈ (m s).flatMap (fun q =>
        if q.2.length < s.length then
          (repMatches m (lo - 1) hi q.2).map fun r => (q.1 ++ r.1, r.2)
        else []) → p.2 <:+ s := by
      intro hmem
      rw [List.mem_flatMap] at hmem
      obtain ⟨q, hq, hp2⟩ := hmem
      split at hp2
      · rw [List.mem_map] at hp2
        obtain ⟨r, hr, hpr⟩ := hp2
        rw [← hpr]
        exact (ih (lo - 1) q.2 r hr).trans (hm s q hq)
      · simp at hp2
    split at hp
    · rw [List.mem_append] at hp
      rcases hp with hp | hp
      · exact hmore hp
      · simp only [List.mem_singleton] at hp
        rw [hp]
    · exact hmore hp

theorem matchesRE_suffix :
    ∀ (r : RE) (s : List Char) (p : Caps × List Char),
      p ∈ matchesRE r s → p.2 <:+ s := by
  intro r
  induction r with
  | eps =>
    intro s p hp
    simp only [matchesRE, List.mem_singleton] at hp
    rw [hp]
  | ch c =>
    intro s p hp
    cases s with
    | nil => simp [matchesRE] at hp
    | cons x rest =>
      simp only [matchesRE] at hp
      split at hp
      · simp only [List.mem_singleton] at hp
        rw [hp]
        exact List.suffix_cons x rest
      · simp at hp
  | any =>
    intro s p hp
    cases s with
    | nil => simp [matchesRE] at hp
    | cons x rest =>
      simp only [matchesRE] at hp
      split at hp
      · simp at hp
      · simp only [List.mem_singleton] at hp
        rw [hp]
        exact List.suffix_cons x rest
  | cls cs =>
    intro s p hp
    cases s with
    | nil => simp [matchesRE] at hp
    | cons x rest =>
      simp only [matchesRE] at hp
      split at hp
      · simp only [List.mem_singleton] at hp
        rw [hp]
        exact List.suffix_cons x rest
      · simp at hp
  | digit =>
    intro s p hp
    cases s with
    | nil => simp [matchesRE] at hp
    | cons x rest =>
      simp only [matchesRE] at hp
      split at hp
      · simp only [List.mem_singleton] at hp
        rw [hp]
        exact List.suffix_cons x rest
      · simp at hp
  | seq a b iha ihb =>
    intro s p hp
    simp only [matchesRE] at hp
    rw [List.mem_flatMap] at hp
    obtain ⟨q, hq, hp2⟩ := hp
    rw [List.mem_map] at hp2
    obtain ⟨r', hr', hpr⟩ := hp2
    rw [← hpr]
    exact (ihb _ _ hr').trans (iha _ _ hq)
  | star r ihr =>
    intro s p hp
    simp only [matchesRE] at hp
    exact repMatches_suffix _ (fun s' p' h => ihr s' p' h) _ _ _ _ hp
  | rep r lo hi ihr =>
    intro s p hp
    simp only [matchesRE] at hp
    exact repMatches_suffix _ (fun s' p' h => ihr s' p' h) _ _ _ _ hp
  | group n r ihr =>
    intro s p hp
    simp only [matchesRE] at hp
    rw [List.mem_map] at hp
    obtain ⟨q, hq, hpq⟩ := hp
    rw [← hpq]
    exact ihr s q hq

theorem matchesRE_names :
    ∀ (r : RE), repGroupFree r = true →
      ∀ (s : List Char) (p : Caps × List Char), p ∈ matchesRE r s →
        p.1.map Prod.fst = groupNames r := by
  intro r
  induction r with
  | eps =>
    intro _ s p hp
    simp only [matchesRE, List.mem_singleton] at hp
    rw [hp]
    rfl
  | ch c =>
    intro _ s p hp
    cases s with
    | nil => simp [matchesRE] at hp
    | cons x rest =>
      simp only [matchesRE] at hp
      split at hp
      · simp only [List.mem_singleton] at hp
        rw [hp]
        rfl
      · simp at hp
  | any =>
    intro _ s p hp
    cases s with
    | nil => simp [matchesRE] at hp
    | cons x rest =>
      simp only [matchesRE] at hp
      split at hp
      · simp at hp
      · simp only [List.mem_singleton] at hp
        rw [hp]
        rfl
  | cls cs =>
    intro _ s p hp
    cases s with
    | nil => simp [matchesRE] at hp
    | cons x rest =>
      simp only [matchesRE] at hp
      split at hp
      · simp only [List.mem_singleton] at hp
        rw [hp]
        rfl
      · simp at hp
  | digit =>
    intro _ s p hp
    cases s with
    | nil => simp [matchesRE] at hp
    | cons x rest =>
      simp only [matchesRE] at hp
      split at hp
      · simp only [List.mem_singleton] at hp
        rw [hp]
        rfl
      · simp at hp
  | seq a b iha ihb =>
    intro hrgf s p hp
    simp only [repGroupFree, Bool.and_eq_true] at hrgf
    simp only [matchesRE] at hp
    rw [List.mem_flatMap] at hp
    obtain ⟨q, hq, hp2⟩ := hp
    rw [List.mem_map] at hp2
    obtain ⟨r', hr', hpr⟩ := hp2
    rw [← hpr]
    simp only [List.map_append, groupNames]
    rw [iha hrgf.1 _ _ hq, ihb hrgf.2 _ _ hr']
  | star r ihr =>
    intro hrgf s p hp
    simp only [repGroupFree, Bool.and_eq_true, List.isEmpty_iff] at hrgf
    simp only [matchesRE] at hp
    have hnil : ∀ s' p', p' ∈ matchesRE r s' → p'.1 = ([] : Caps) := by
      intro s' p' h
      have := ihr hrgf.2 s' p' h
      rw [hrgf.1] at this
      exact List.map_eq_nil_iff.mp this
    have := repMatches_caps_nil _ hnil _ _ _ _ hp
    rw [this]
    simp [groupNames, hrgf.1]
  | rep r lo hi ihr =>
    intro hrgf s p hp
    simp only [repGroupFree, Bool.and_eq_true, List.isEmpty_iff] at hrgf
    simp only [matchesRE] at hp
    have hnil : ∀ s' p', p' ∈ matchesRE r s' → p'.1 = ([] : Caps) := by
      intro s' p' h
      have := ihr hrgf.2 s' p' h
      rw [hrgf.1] at this
      exact List.map_eq_nil_iff.mp this
    have := repMatches_caps_nil _ hnil _ _ _ _ hp
    rw [this]
    simp [groupNames, hrgf.1]
  | group n r ihr =>
    intro hrgf s p hp
    simp only [matchesRE] at hp
    rw [List.mem_map] at hp
    obtain ⟨q, hq, hpq⟩ := hp
    rw [← hpq]
    simp only [List.map_append, groupNames, List.map_cons, List.map_nil]
    rw [ihr hrgf s q hq]

/-! ### The three filename templates, named -/

/-- Template 1: undetermined-reads filenames. -/
def templateUndetermined (suffix : String) : RE :=
  .seq (joinUnderscoreRE [undetermined_sample_name_re, lane_re, read_re, set_number_re])
    (extension_re suffix)

/-- Template 2: bcl2fastq 2.x sample-number filenames. -/
def templateSampleNumber (suffix : String) : RE :=
  .seq (joinUnderscoreRE [sample_name_re, sample_number_re, lane_re, read_re, set_number_re])
    (extension_re suffix)

/-- Template 3: bcl2fastq 1.8.4 index-sequence filenames. -/
def templateIndex (suffix : String) : RE :=
  .seq (joinUnderscoreRE [sample_name_re, index_re, lane_re, read_re, set_number_re])
    (extension_re suffix)

theorem filename_regexes_eq (sfx : String) :
    filename_regexes sfx =
      [templateUndetermined sfx, templateSampleNumber sfx, templateIndex sfx] := rfl

theorem extFoldProps (l : List Char) :
    groupNames (l.foldr (fun c r => RE.seq (if c = '.' then RE.any else RE.ch c) r) RE.eps) = []
    ∧ repGroupFree (l.foldr (fun c r => RE.seq (if c = '.' then RE.any else RE.ch c) r) RE.eps)
      = true := by
  induction l with
  | nil => exact ⟨rfl, rfl⟩
  | cons c cs ih =>
    constructor
    · by_cases h : c = '.' <;> simp [groupNames, h, ih.1]
    · by_cases h : c = '.' <;> simp [repGroupFree, h, ih.2]

theorem extension_re_props (sfx : String) :
    groupNames (extension_re sfx) = [] ∧ repGroupFree (extension_re sfx) = true :=
  extFoldProps sfx.toList

theorem litFoldProps (l : List Char) :
    groupNames (l.foldr (fun c r => RE.seq (RE.ch c) r) RE.eps) = []
    ∧ repGroupFree (l.foldr (fun c r => RE.seq (RE.ch c) r) RE.eps) = true := by
  induction l with
  | nil => exact ⟨rfl, rfl⟩
  | cons c cs ih => exact ⟨by simp [groupNames, ih.1], by simp [repGroupFree, ih.2]⟩

theorem litRE_props (s : String) :
    groupNames (litRE s) = [] ∧ repGroupFree (litRE s) = true :=
  litFoldProps s.toList

theorem templateUndetermined_props (sfx : String) :
    groupNames (templateUndetermined sfx) = ["sample_name", "lane", "read", "set_number"]
    ∧ repGroupFree (templateUndetermined sfx) = true := by
  have he := extension_re_props sfx
  have hl := litRE_props "_Undetermined"
  constructor
  · simp [templateUndetermined, joinUnderscoreRE, groupNames,
      undetermined_sample_name_re, lane_re, read_re, set_number_re, digitPlusRE,
      he.1, hl.1]
  · simp [templateUndetermined, joinUnderscoreRE, repGroupFree, groupNames,
      undetermined_sample_name_re, lane_re, read_re, set_number_re, digitPlusRE,
      he.1, he.2, hl.1, hl.2]

theorem templateSampleNumber_props (sfx : String) :
    groupNames (templateSampleNumber sfx) =
      ["sample_name", "sample_number", "lane", "read", "set_number"]
    ∧ repGroupFree (templateSampleNumber sfx) = true := by
  have he := extension_re_props sfx
  constructor
  · simp [templateSampleNumber, joinUnderscoreRE, groupNames,
      sample_name_re, sample_number_re, lane_re, read_re, set_number_re, digitPlusRE,
      he.1]
  · simp [templateSampleNumber, joinUnderscoreRE, repGroupFree, groupNames,
      sample_name_re, sample_number_re, lane_re, read_re, set_number_re, digitPlusRE,
      he.1, he.2]

theorem templateIndex_props (sfx : String) :
    groupNames (templateIndex sfx) =
      ["sample_name", "index", "lane", "read", "set_number"]
    ∧ repGroupFree (templateIndex sfx) = true := by
  have he := extension_re_props sfx
  constructor
  · simp [templateIndex, joinUnderscoreRE, groupNames,
      sample_name_re, index_re, lane_re, read_re, set_number_re, digitPlusRE, he.1]
  · simp [templateIndex, joinUnderscoreRE, repGroupFree, groupNames,
      sample_name_re, index_re, lane_re, read_re, set_number_re, digitPlusRE,
      he.1, he.2]

/-! ### The integer conversion step, characterised -/

/-- The pure result of `change_dict_types` in its ignore-missing-keys mode. -/
def cdtPure (d : List (String × FieldVal)) (keys : List String)
    (f : FieldVal → FieldVal) : List (String × FieldVal) :=
  keys.foldl (fun acc k => if acc.any (fun p => p.1 = k) then updateAssoc acc k f else acc) d

theorem change_dict_types_ignore (keys : List String) :
    ∀ (d : List (String × FieldVal)) (f : FieldVal → FieldVal),
      change_dict_types d keys f true = .ok (cdtPure d keys f) := by
  induction keys with
  | nil => intro d f; rfl
  | cons k ks ih =>
    intro d f
    rw [change_dict_types]
    by_cases h : d.any (fun p => p.1 = k)
    · rw [if_pos h, ih]
      simp [cdtPure, List.foldl_cons, h]
    · rw [if_neg h]
      simp only [if_true]
      rw [ih]
      simp [cdtPure, List.foldl_cons, h]

theorem map_ite_id {α : Type} (d : List α) (q : α → Prop) [DecidablePred q] (g : α → α)
    (h : ∀ x ∈ d, ¬ q x) : d.map (fun p => if q p then g p else p) = d := by
  induction d with
  | nil => rfl
  | cons a l ih =>
    have ha : ¬ q a := h a (by simp)
    simp only [List.map_cons, ha, if_false, List.cons.injEq, true_and]
    exact ih (fun x hx => h x (by simp [hx]))

theorem cdtPure_map (keys : List String) :
    ∀ (d : List (String × FieldVal)) (f : FieldVal → FieldVal), keys.Nodup →
      cdtPure d keys f = d.map (fun p => if p.1 ∈ keys then (p.1, f p.2) else p) := by
  induction keys with
  | nil =>
    intro d f _
    simp [cdtPure]
  | cons k ks ih =>
    intro d f hnd
    have hk : k ∉ ks := (List.nodup_cons.mp hnd).1
    have hks : ks.Nodup := (List.nodup_cons.mp hnd).2
    have hstep : (if d.any (fun p => p.1 = k) then updateAssoc d k f else d)
        = d.map (fun p => if p.1 = k then (p.1, f p.2) else p) := by
      by_cases h : d.any (fun p => p.1 = k)
      · rw [if_pos h]; rfl
      · rw [if_neg h]
        symm
        apply map_ite_id
        intro x hx hq
        simp only [List.any_eq_true] at h
        exact h ⟨x, hx, by simp [hq]⟩
    have h1 : cdtPure d (k :: ks) f
        = cdtPure (d.map (fun p => if p.1 = k then (p.1, f p.2) else p)) ks f := by
      simp only [cdtPure, List.foldl_cons]
      rw [hstep]
    rw [h1, ih _ f hks, List.map_map]
    congr 1
    funext p
    by_cases hp : p.1 = k
    · simp [Function.comp, hp, hk, List.mem_cons]
    · simp [Function.comp, hp, List.mem_cons]

theorem cdtPure_keys (keys : List String) (d : List (String × FieldVal))
    (f : FieldVal → FieldVal) (hnd : keys.Nodup) :
    (cdtPure d keys f).map Prod.fst = d.map Prod.fst := by
  rw [cdtPure_map keys d f hnd, List.map_map]
  congr 1
  funext p
  by_cases hp : p.1 ∈ keys <;> simp [Function.comp, hp]

theorem cdtPure_mem (keys : List String) (d : List (String × FieldVal))
    (f : FieldVal → FieldVal) (hnd : keys.Nodup) (k : String) (v : FieldVal)
    (hm : (k, v) ∈ cdtPure d keys f) :
    ∃ v0, (k, v0) ∈ d ∧ v = (if k ∈ keys then f v0 else v0) := by
  rw [cdtPure_map keys d f hnd] at hm
  rw [List.mem_map] at hm
  obtain ⟨p, hp, he⟩ := hm
  by_cases hk : p.1 ∈ keys
  · rw [if_pos hk] at he
    have h1 : p.1 = k := congrArg Prod.fst he
    have h2 : f p.2 = v := congrArg Prod.snd he
    refine ⟨p.2, ?_, ?_⟩
    · rw [← h1]; exact hp
    · rw [← h1]
      rw [if_pos hk, h2]
  · rw [if_neg hk] at he
    have h1 : p.1 = k := congrArg Prod.fst he
    have h2 : p.2 = v := congrArg Prod.snd he
    refine ⟨p.2, ?_, ?_⟩
    · rw [← h1]; exact hp
    · rw [← h1]
      rw [if_neg hk, h2]

/-- What `convertMatch` makes of the captures of a whole-filename match of a
repetition-group-free template: the field keys are exactly the template's
group names in order, listed numeric fields come out as integers, and every
other field keeps its captured string. -/
theorem convertMatch_spec (t : RE) (fn : String) (caps : Caps)
    (d : List (String × FieldVal)) (hrgf : repGroupFree t = true)
    (hmatch : reFullMatch t fn = some caps) (hconv : convertMatch caps = some d) :
    d.map Prod.fst = groupNames t
    ∧ ∀ k v, (k, v) ∈ d →
        (k ∈ numericFieldKeys → ∃ n, v = FieldVal.int n)
        ∧ (k ∉ numericFieldKeys → ∃ w, v = FieldVal.str w ∧ (k, w) ∈ caps) := by
  have hnd : numericFieldKeys.Nodup := by decide
  unfold reFullMatch at hmatch
  rw [Option.map_eq_some'] at hmatch
  obtain ⟨p, hfind, hp1⟩ := hmatch
  have hpmem : p ∈ matchesRE t fn.toList := List.mem_of_find?_eq_some hfind
  have hnames : caps.map Prod.fst = groupNames t := by
    rw [← hp1]
    exact matchesRE_names t hrgf _ _ hpmem
  unfold convertMatch at hconv
  rw [change_dict_types_ignore] at hconv
  have hd : d = cdtPure (caps.map fun c => (c.1, FieldVal.str c.2)) numericFieldKeys pyInt := by
    have := hconv
    simp only [Option.some.injEq] at this
    exact this.symm
  constructor
  · rw [hd, cdtPure_keys _ _ _ hnd, List.map_map]
    rw [← hnames]
    congr 1
  · intro k v hkv
    rw [hd] at hkv
    obtain ⟨v0, hv0mem, hv0⟩ := cdtPure_mem _ _ _ hnd k v hkv
    rw [List.mem_map] at hv0mem
    obtain ⟨c, hc, hce⟩ := hv0mem
    have hc1 : c.1 = k := congrArg Prod.fst hce
    have hc2 : FieldVal.str c.2 = v0 := congrArg Prod.snd hce
    constructor
    · intro hknum
      rw [if_pos hknum] at hv0
      rw [← hc2] at hv0
      exact ⟨digitsToNat c.2, hv0⟩
    · intro hknum
      rw [if_neg hknum] at hv0
      rw [← hc2] at hv0
      refine ⟨c.2, hv0, ?_⟩
      rw [← hc1]
      exact hc

/-! ### Claim C1: template precedence in the filename matcher -/

/-- C1: `parse_sample_info_from_filename` tries the three templates strictly
in order — undetermined-reads, then sample-number, then index-sequence — and
returns the converted field mapping of the first one matching the entire
filename, else `none`; `sample1_Undetermined_L001_R1_001.fastq.gz` is claimed
by the undetermined template (sample_name `sample1_Undetermined`, lane 1,
read 1, set 1) and `SampleA_S1_L001_R1_001.fastq.gz` by the sample-number
template (sample_number 1), the index template not matching it. -/
theorem filename_matcher_precedence :
    (∀ fp sfx : String,
      parse_sample_info_from_filename fp sfx =
        match reFullMatch (templateUndetermined sfx) (basename fp) with
        | some caps => convertMatch caps
        | none =>
          match reFullMatch (templateSampleNumber sfx) (basename fp) with
          | some caps => convertMatch caps
          | none =>
            match reFullMatch (templateIndex sfx) (basename fp) with
            | some caps => convertMatch caps
            | none => none)
    ∧ parse_sample_info_from_filename "sample1_Undetermined_L001_R1_001.fastq.gz" ".fastq.gz"
        = some [("sample_name", FieldVal.str "sample1_Undetermined"), ("lane", FieldVal.int 1),
            ("read", FieldVal.int 1), ("set_number", FieldVal.int 1)]
    ∧ (reFullMatch (templateUndetermined ".fastq.gz")
          "sample1_Undetermined_L001_R1_001.fastq.gz").isSome = true
    ∧ parse_sample_info_from_filename "SampleA_S1_L001_R1_001.fastq.gz" ".fastq.gz"
        = some [("sample_name", FieldVal.str "SampleA"), ("sample_number", FieldVal.int 1),
            ("lane", FieldVal.int 1), ("read", FieldVal.int 1), ("set_number", FieldVal.int 1)]
    ∧ (reFullMatch (templateSampleNumber ".fastq.gz")
          "SampleA_S1_L001_R1_001.fastq.gz").isSome = true
    ∧ reFullMatch (templateIndex ".fastq.gz") "SampleA_S1_L001_R1_001.fastq.gz" = none := by
  refine ⟨fun fp sfx => ?_, by decide, by decide, by decide, by decide, by decide⟩
  unfold parse_sample_info_from_filename
  rw [filename_regexes_eq]
  simp only [List.findSome?_cons, List.findSome?_nil]
  cases h1 : reFullMatch (templateUndetermined sfx) (basename fp) with
  | some caps => rfl
  | none =>
    cases h2 : reFullMatch (templateSampleNumber sfx) (basename fp) with
    | some caps => rfl
    | none =>
      cases h3 : reFullMatch (templateIndex sfx) (basename fp) with
      | some caps => rfl
      | none => rfl

/-- Witness for C1's first-match rule applied at a concrete filename. -/
theorem filename_matcher_precedence_witness :
    parse_sample_info_from_filename "run/lane1_Undetermined_L008_R2_002.fastq.gz" ".fastq.gz"
      = match reFullMatch (templateUndetermined ".fastq.gz")
            (basename "run/lane1_Undetermined_L008_R2_002.fastq.gz") with
        | some caps => convertMatch caps
        | none =>
          match reFullMatch (templateSampleNumber ".fastq.gz")
              (basename "run/lane1_Undetermined_L008_R2_002.fastq.gz") with
          | some caps => convertMatch caps
          | none =>
            match reFullMatch (templateIndex ".fastq.gz")
                (basename "run/lane1_Undetermined_L008_R2_002.fastq.gz") with
            | some caps => convertMatch caps
            | none => none :=
  filename_matcher_precedence.1 "run/lane1_Undetermined_L008_R2_002.fastq.gz" ".fastq.gz"

/-! ### Claim C3: numeric fields of a matched template are always present,
converted to integers, never defaulted or omitted -/

/-- C3: whenever a template matches, the returned dictionary's keys are
exactly the matched template's field names — in particular every numeric
field the template requires is present (the `MissingFieldError` guard of
`change_dict_types` can never fire) — and each listed numeric field holds the
integer conversion of its capture; nothing is defaulted to zero or silently
omitted. -/
theorem filename_matcher_required_fields (fp sfx : String)
    (d : List (String × FieldVal))
    (h : parse_sample_info_from_filename fp sfx = some d) :
    (d.map Prod.fst = ["sample_name", "lane", "read", "set_number"]
      ∨ d.map Prod.fst = ["sample_name", "sample_number", "lane", "read", "set_number"]
      ∨ d.map Prod.fst = ["sample_name", "index", "lane", "read", "set_number"])
    ∧ ∀ k v, (k, v) ∈ d → k ∈ numericFieldKeys → ∃ n, v = FieldVal.int n := by
  unfold parse_sample_info_from_filename at h
  rw [filename_regexes_eq] at h
  simp only [List.findSome?_cons, List.findSome?_nil] at h
  cases h1 : reFullMatch (templateUndetermined sfx) (basename fp) with
  | some caps =>
    rw [h1] at h
    have spec := convertMatch_spec _ _ _ _ (templateUndetermined_props sfx).2 h1 h
    refine ⟨Or.inl ?_, fun k v hkv hnum => (spec.2 k v hkv).1 hnum⟩
    rw [spec.1, (templateUndetermined_props sfx).1]
  | none =>
    rw [h1] at h
    cases h2 : reFullMatch (templateSampleNumber sfx) (basename fp) with
    | some caps =>
      rw [h2] at h
      have spec := convertMatch_spec _ _ _ _ (templateSampleNumber_props sfx).2 h2 h
      refine ⟨Or.inr (Or.inl ?_), fun k v hkv hnum => (spec.2 k v hkv).1 hnum⟩
      rw [spec.1, (templateSampleNumber_props sfx).1]
    | none =>
      rw [h2] at h
      cases h3 : reFullMatch (templateIndex sfx) (basename fp) with
      | some caps =>
        rw [h3] at h
        have spec := convertMatch_spec _ _ _ _ (templateIndex_props sfx).2 h3 h
        refine ⟨Or.inr (Or.inr ?_), fun k v hkv hnum => (spec.2 k v hkv).1 hnum⟩
        rw [spec.1, (templateIndex_props sfx).1]
      | none =>
        rw [h3] at h
        exact absurd h (by simp)

/-- Witness for C3 at a sample-number filename. -/
theorem filename_matcher_required_fields_witness :
    ([("sample_name", FieldVal.str "SampleA"), ("sample_number", FieldVal.int 1),
        ("lane", FieldVal.int 1), ("read", FieldVal.int 1),
        ("set_number", FieldVal.int 1)].map Prod.fst
      = ["sample_name", "lane", "read", "set_number"]
      ∨ [("sample_name", FieldVal.str "SampleA"), ("sample_number", FieldVal.int 1),
          ("lane", FieldVal.int 1), ("read", FieldVal.int 1),
          ("set_number", FieldVal.int 1)].map Prod.fst
        = ["sample_name", "sample_number", "lane", "read", "set_number"]
      ∨ [("sample_name", FieldVal.str "SampleA"), ("sample_number", FieldVal.int 1),
          ("lane", FieldVal.int 1), ("read", FieldVal.int 1),
          ("set_number", FieldVal.int 1)].map Prod.fst
        = ["sample_name", "index", "lane", "read", "set_number"])
    ∧ ∀ k v, (k, v) ∈ [("sample_name", FieldVal.str "SampleA"),
        ("sample_number", FieldVal.int 1), ("lane", FieldVal.int 1),
        ("read", FieldVal.int 1), ("set_number", FieldVal.int 1)] →
        k ∈ numericFieldKeys → ∃ n, v = FieldVal.int n :=
  filename_matcher_required_fields "SampleA_S1_L001_R1_001.fastq.gz" ".fastq.gz" _ (by decide)

/-! ### Claim C10: the index-sequence template -/

theorem repMatches_cls (cs : List Char) :
    ∀ (hi lo : Nat) (s : List Char) (p : Caps × List Char),
      p ∈ repMatches (fun t => matchesRE (.cls cs) t) lo hi s →
      ∃ t, s = t ++ p.2 ∧ lo ≤ t.length ∧ t.length ≤ hi ∧ ∀ c ∈ t, c ∈ cs := by
  intro hi
  induction hi with
  | zero =>
    intro lo s p hp
    simp only [repMatches] at hp
    by_cases hlo : lo = 0
    · rw [if_pos hlo] at hp
      simp only [List.mem_singleton] at hp
      exact ⟨[], by simp [hp], by simp [hlo], by simp,
        fun c hc => absurd hc (List.not_mem_nil c)⟩
    · rw [if_neg hlo] at hp
      simp at hp
  | succ hi ih =>
    intro lo s p hp
    simp only [repMatches] at hp
    have hmore : p ∈ (matchesRE (.cls cs) s).flatMap (fun q =>
        if q.2.length < s.length then
          (repMatches (fun t => matchesRE (.cls cs) t) (lo - 1) hi q.2).map
            fun r => (q.1 ++ r.1, r.2)
        else []) →
        ∃ t, s = t ++ p.2 ∧ lo ≤ t.length ∧ t.length ≤ hi + 1 ∧ ∀ c ∈ t, c ∈ cs := by
      intro hmem
      rw [List.mem_flatMap] at hmem
      obtain ⟨q, hq, hp2⟩ := hmem
      cases s with
      | nil => simp [matchesRE] at hq
      | cons x rest =>
        simp only [matchesRE] at hq
        by_cases hx : x ∈ cs
        · rw [if_pos hx] at hq
          simp only [List.mem_singleton] at hq
          rw [hq] at hp2
          split at hp2
          · rw [List.mem_map] at hp2
            obtain ⟨r, hr, hpr⟩ := hp2
            obtain ⟨t', ht', hlo', hhi', hcs'⟩ := ih (lo - 1) rest r hr
            refine ⟨x :: t', ?_, ?_, ?_, ?_⟩
            · rw [← hpr]
              simp only [List.cons_append, List.cons.injEq, true_and]
              exact ht'
            · simp only [List.length_cons]; omega
            · simp only [List.length_cons]; omega
            · intro c hc
              rcases List.mem_cons.mp hc with hc | hc
              · rw [hc]; exact hx
              · exact hcs' c hc
          · simp at hp2
        · rw [if_neg hx] at hq
          simp at hq
    by_cases hlo : lo = 0
    · rw [if_pos hlo] at hp
      rw [List.mem_append] at hp
      rcases hp with hp | hp
      · exact hmore hp
      · simp only [List.mem_singleton] at hp
        exact ⟨[], by simp [hp], by simp [hlo], by simp,
          fun c hc => absurd hc (List.not_mem_nil c)⟩
    · rw [if_neg hlo] at hp
      exact hmore hp

theorem index_re_capture :
    ∀ (s : List Char) (p : Caps × List Char), p ∈ matchesRE index_re s →
      ∀ v : String, ("index", v) ∈ p.1 →
        6 ≤ v.toList.length ∧ v.toList.length ≤ 33
        ∧ ∀ c ∈ v.toList, c ∈ ['A', 'T', 'G', 'C', '-'] := by
  intro s p hp v hv
  simp only [index_re, matchesRE] at hp
  rw [List.mem_map] at hp
  obtain ⟨q, hq, hpq⟩ := hp
  have hnil : ∀ (s' : List Char) (p' : Caps × List Char),
      p' ∈ matchesRE (RE.cls ['A', 'T', 'G', 'C', '-']) s' → p'.1 = ([] : Caps) := by
    intro s' p' hmem
    have h0 := matchesRE_names (RE.cls ['A', 'T', 'G', 'C', '-']) rfl s' p' hmem
    simpa [groupNames] using h0
  have hq1 : q.1 = [] := repMatches_caps_nil _ hnil 33 6 s q hq
  obtain ⟨t, ht, hlo, hhi, hcs⟩ := repMatches_cls _ 33 6 s q hq
  rw [← hpq] at hv
  rw [hq1] at hv
  simp only [List.nil_append, List.mem_singleton] at hv
  have hveq : v = String.mk (List.take (s.length - q.2.length) s) := congrArg Prod.snd hv
  have hlen : s.length - q.2.length = t.length := by
    rw [ht]; simp
  rw [hlen] at hveq
  have htake : List.take t.length s = t := by
    rw [ht]
    exact List.take_left t q.2
  rw [htake] at hveq
  rw [hveq]
  exact ⟨hlo, hhi, hcs⟩

/-- Any capture named `index` in a match of `r` is 6–33 characters over
`{A,T,G,C,-}`. -/
def IndexCapsP (r : RE) : Prop :=
  ∀ (s : List Char) (p : Caps × List Char), p ∈ matchesRE r s →
    ∀ v : String, ("index", v) ∈ p.1 →
      6 ≤ v.toList.length ∧ v.toList.length ≤ 33
      ∧ ∀ c ∈ v.toList, c ∈ ['A', 'T', 'G', 'C', '-']

theorem IndexCapsP_of_no_index (r : RE) (hrgf : repGroupFree r = true)
    (hno : "index" ∉ groupNames r) : IndexCapsP r := by
  intro s p hp v hv
  exfalso
  have hnames := matchesRE_names r hrgf s p hp
  have hmem : "index" ∈ p.1.map Prod.fst := List.mem_map_of_mem Prod.fst hv
  rw [hnames] at hmem
  exact hno hmem

theorem IndexCapsP_seq (a b : RE) (ha : IndexCapsP a) (hb : IndexCapsP b) :
    IndexCapsP (.seq a b) := by
  intro s p hp v hv
  simp only [matchesRE] at hp
  rw [List.mem_flatMap] at hp
  obtain ⟨q, hq, hp2⟩ := hp
  rw [List.mem_map] at hp2
  obtain ⟨r', hr', hpr⟩ := hp2
  rw [← hpr] at hv
  rw [List.mem_append] at hv
  rcases hv with hv | hv
  · exact ha _ _ hq v hv
  · exact hb _ _ hr' v hv

theorem IndexCapsP_templateIndex (sfx : String) : IndexCapsP (templateIndex sfx) := by
  have h : templateIndex sfx =
      .seq (.seq sample_name_re (.seq (.ch '_') (.seq index_re (.seq (.ch '_')
        (.seq lane_re (.seq (.ch '_') (.seq read_re (.seq (.ch '_') set_number_re))))))))
        (extension_re sfx) := rfl
  rw [h]
  refine IndexCapsP_seq _ _ ?_ ?_
  · refine IndexCapsP_seq _ _ (IndexCapsP_of_no_index _ (by decide) (by decide)) ?_
    refine IndexCapsP_seq _ _ (IndexCapsP_of_no_index _ (by decide) (by decide)) ?_
    refine IndexCapsP_seq _ _ index_re_capture ?_
    refine IndexCapsP_seq _ _ (IndexCapsP_of_no_index _ (by decide) (by decide)) ?_
    refine IndexCapsP_seq _ _ (IndexCapsP_of_no_index _ (by decide) (by decide)) ?_
    refine IndexCapsP_seq _ _ (IndexCapsP_of_no_index _ (by decide) (by decide)) ?_
    refine IndexCapsP_seq _ _ (IndexCapsP_of_no_index _ (by decide) (by decide)) ?_
    refine IndexCapsP_seq _ _ (IndexCapsP_of_no_index _ (by decide) (by decide))
      (IndexCapsP_of_no_index _ (by decide) (by decide))
  · exact IndexCapsP_of_no_index _ (extension_re_props sfx).2
      (by rw [(extension_re_props sfx).1]; simp)

/-- C10: the index-sequence template only matches an index field of 6 to 33
characters drawn from `{A,T,G,C,-}` — any `index` field in the matcher's
output satisfies those bounds — and a filename with an index-like field
outside that language (here `NoIndex`) that matches neither the undetermined
nor the sample-number template yields no match at all. -/
theorem index_template_charset_bounds :
    (∀ (fp sfx : String) (d : List (String × FieldVal)) (v : FieldVal),
        parse_sample_info_from_filename fp sfx = some d → ("index", v) ∈ d →
        ∃ w : String, v = FieldVal.str w ∧ 6 ≤ w.toList.length ∧ w.toList.length ≤ 33
          ∧ ∀ c ∈ w.toList, c ∈ ['A', 'T', 'G', 'C', '-'])
    ∧ parse_sample_info_from_filename "lane1_NoIndex_L001_R1_001.fastq.gz" ".fastq.gz"
        = none := by
  refine ⟨?_, by decide⟩
  intro fp sfx d v h hvd
  unfold parse_sample_info_from_filename at h
  rw [filename_regexes_eq] at h
  simp only [List.findSome?_cons, List.findSome?_nil] at h
  cases h1 : reFullMatch (templateUndetermined sfx) (basename fp) with
  | some caps =>
    rw [h1] at h
    have spec := convertMatch_spec _ _ _ _ (templateUndetermined_props sfx).2 h1 h
    exfalso
    have hmem : "index" ∈ d.map Prod.fst := List.mem_map_of_mem Prod.fst hvd
    rw [spec.1, (templateUndetermined_props sfx).1] at hmem
    simp at hmem
  | none =>
    rw [h1] at h
    cases h2 : reFullMatch (templateSampleNumber sfx) (basename fp) with
    | some caps =>
      rw [h2] at h
      have spec := convertMatch_spec _ _ _ _ (templateSampleNumber_props sfx).2 h2 h
      exfalso
      have hmem : "index" ∈ d.map Prod.fst := List.mem_map_of_mem Prod.fst hvd
      rw [spec.1, (templateSampleNumber_props sfx).1] at hmem
      simp at hmem
    | none =>
      rw [h2] at h
      cases h3 : reFullMatch (templateIndex sfx) (basename fp) with
      | some caps =>
        rw [h3] at h
        have spec := convertMatch_spec _ _ _ _ (templateIndex_props sfx).2 h3 h
        have hni : "index" ∉ numericFieldKeys := by decide
        obtain ⟨w, hw, hwcaps⟩ := (spec.2 "index" v hvd).2 hni
        unfold reFullMatch at h3
        rw [Option.map_eq_some'] at h3
        obtain ⟨p, hfind, hp1⟩ := h3
        have hpmem := List.mem_of_find?_eq_some hfind
        have hprop := IndexCapsP_templateIndex sfx _ _ hpmem w (by rw [hp1]; exact hwcaps)
        exact ⟨w, hw, hprop.1, hprop.2.1, hprop.2.2⟩
      | none =>
        rw [h3] at h
        exact absurd h (by simp)

/-- Witness for C10 at a bcl2fastq 1.8.4 style filename with index `ATCACG`. -/
theorem index_template_charset_bounds_witness :
    ∃ w : String, FieldVal.str "ATCACG" = FieldVal.str w ∧ 6 ≤ w.toList.length
      ∧ w.toList.length ≤ 33 ∧ ∀ c ∈ w.toList, c ∈ ['A', 'T', 'G', 'C', '-'] :=
  index_template_charset_bounds.1 "NA10831_ATCACG_L002_R1_001.fastq.gz" ".fastq.gz"
    [("sample_name", FieldVal.str "NA10831"), ("index", FieldVal.str "ATCACG"),
     ("lane", FieldVal.int 2), ("read", FieldVal.int 1), ("set_number", FieldVal.int 1)]
    (FieldVal.str "ATCACG") (by decide) (by decide)

/-! ### Claim C5: the directory mapper is deterministic and sorted -/

theorem lookupP_map_key_update {κ β : Type} [DecidableEq κ]
    (d : List (κ × β)) (k : κ) (g : β → β) :
    lookupP (d.map (fun p => if p.1 = k then (p.1, g p.2) else p)) k
      = (lookupP d k).map g := by
  induction d with
  | nil => rfl
  | cons p rest ih =>
    by_cases hp : p.1 = k
    · simp only [List.map_cons, hp, if_true]
      unfold lookupP
      rw [List.find?, List.find?]
      simp [hp]
    · simp only [List.map_cons, hp, if_false]
      unfold lookupP
      rw [List.find?, List.find?]
      simp only [hp, decide_False]
      exact ih

theorem lookupP_map_key_update_other {κ β : Type} [DecidableEq κ]
    (d : List (κ × β)) (k k' : κ) (g : β → β) (hne : k' ≠ k) :
    lookupP (d.map (fun p => if p.1 = k then (p.1, g p.2) else p)) k'
      = lookupP d k' := by
  induction d with
  | nil => rfl
  | cons p rest ih =>
    by_cases hp : p.1 = k
    · simp only [List.map_cons, hp, if_true]
      unfold lookupP
      rw [List.find?, List.find?]
      have hkk : (decide (k = k')) = false := by
        simp only [decide_eq_false_iff_not]
        exact fun hh => hne hh.symm
      simp only [hp, hkk]
      exact ih
    · simp only [List.map_cons, hp, if_false]
      unfold lookupP
      rw [List.find?, List.find?]
      by_cases hpk : p.1 = k'
      · simp [hpk]
      · simp only [hpk, decide_False]
        exact ih

theorem lookupP_not_found {κ β : Type} [DecidableEq κ] (d : List (κ × β)) (k : κ)
    (h : d.any (fun p => p.1 = k) = false) : lookupP d k = none := by
  unfold lookupP
  have : d.find? (fun p => p.1 = k) = none := by
    rw [List.find?_eq_none]
    intro x hx
    rw [List.any_eq_false] at h
    exact h x hx
  rw [this]
  rfl

theorem lookupP_addToMapping_same (m : List (String × List String)) (proj path : String) :
    lookupP (addToMapping m proj path) proj = some ((lookupP m proj).getD [] ++ [path]) := by
  unfold addToMapping
  by_cases h : m.any (fun p => p.1 = proj)
  · rw [if_pos h]
    have hupd := lookupP_map_key_update m proj (fun l => l ++ [path])
    cases hl : lookupP m proj with
    | none =>
      exfalso
      rw [lookupP_eq_none_iff m proj] at hl
      rw [hl] at h
      exact Bool.noConfusion h
    | some l0 =>
      rw [hl] at hupd
      exact hupd
  · rw [if_neg h]
    have hfalse : m.any (fun p => p.1 = proj) = false := Bool.eq_false_iff.mpr h
    rw [lookupP_not_found m proj hfalse]
    unfold lookupP
    rw [List.find?_append]
    have hnone : m.find? (fun p => decide (p.1 = proj)) = none := by
      rw [List.find?_eq_none]
      intro x hx
      rw [List.any_eq_false] at hfalse
      have := hfalse x hx
      simpa using this
    simp [hnone, List.find?]

theorem lookupP_addToMapping_other (m : List (String × List String))
    (proj path k : String) (hne : k ≠ proj) :
    lookupP (addToMapping m proj path) k = lookupP m k := by
  unfold addToMapping
  by_cases h : m.any (fun p => p.1 = proj)
  · rw [if_pos h]
    exact lookupP_map_key_update_other m proj k (fun l => l ++ [path]) hne
  · rw [if_neg h]
    unfold lookupP
    rw [List.find?_append]
    cases hfind : m.find? (fun p => decide (p.1 = k)) with
    | some p => simp
    | none =>
      simp only [Option.none_or]
      rw [List.find?]
      have hkk : (decide (proj = k)) = false := by
        simp only [decide_eq_false_iff_not]
        exact fun hh => hne hh.symm
      simp [hkk, List.find?]

theorem foldAdd_lookup (cu : Bool) :
    ∀ (L : List String) (m : List (String × List String)) (proj : String),
      lookupP (L.foldl (fun acc f => addToMapping acc (classifyProject cu f) f) m) proj
        = match lookupP m proj with
          | some l0 => some (l0 ++ L.filter (fun f => classifyProject cu f = proj))
          | none =>
            if (L.filter (fun f => classifyProject cu f = proj)).isEmpty then none
            else some (L.filter (fun f => classifyProject cu f = proj)) := by
  intro L
  induction L with
  | nil =>
    intro m proj
    cases hl : lookupP m proj <;> simp [hl]
  | cons f rest ih =>
    intro m proj
    rw [List.foldl_cons]
    rw [ih (addToMapping m (classifyProject cu f) f) proj]
    by_cases hproj : classifyProject cu f = proj
    · rw [← hproj]
      rw [lookupP_addToMapping_same m (classifyProject cu f) f]
      have hfil : (f :: rest).filter (fun g => classifyProject cu g = classifyProject cu f)
          = f :: rest.filter (fun g => classifyProject cu g = classifyProject cu f) := by
        simp [List.filter_cons]
      rw [hfil]
      cases hl : lookupP m (classifyProject cu f) with
      | none => simp
      | some l0 => simp
    · rw [lookupP_addToMapping_other m (classifyProject cu f) f proj
        (fun hh => hproj hh.symm)]
      have hfil : (f :: rest).filter (fun g => classifyProject cu g = proj)
          = rest.filter (fun g => classifyProject cu g = proj) := by
        simp [List.filter_cons, hproj]
      rw [hfil]

theorem addToMapping_keys (m : List (String × List String)) (proj path : String) :
    (addToMapping m proj path).map Prod.fst
      = if m.any (fun p => p.1 = proj) then m.map Prod.fst
        else m.map Prod.fst ++ [proj] := by
  unfold addToMapping
  by_cases h : m.any (fun p => p.1 = proj)
  · rw [if_pos h, if_pos h, List.map_map]
    congr 1
    funext p
    by_cases hp : p.1 = proj <;> simp [Function.comp, hp]
  · rw [if_neg h, if_neg h]
    simp

/-- The distinct values of a list in order of first occurrence, those already
seen excluded. -/
def firstOccurAux (seen : List String) : List String → List String
  | [] => []
  | k :: ks => if k ∈ seen then firstOccurAux seen ks else k :: firstOccurAux (seen ++ [k]) ks

theorem firstOccurAux_cons (seen : List String) (k : String) (ks : List String) :
    firstOccurAux seen (k :: ks)
      = if k ∈ seen then firstOccurAux seen ks else k :: firstOccurAux (seen ++ [k]) ks := rfl

theorem any_key_eq_mem_map (m : List (String × List String)) (k : String) :
    m.any (fun p => p.1 = k) = true ↔ k ∈ m.map Prod.fst := by
  rw [List.any_eq_true, List.mem_map]
  constructor
  · rintro ⟨p, hp, he⟩
    exact ⟨p, hp, by simpa using he⟩
  · rintro ⟨p, hp, he⟩
    exact ⟨p, hp, by simpa using he⟩

theorem firstOccurAux_congr_seen :
    ∀ (L seen1 seen2 : List String), (∀ x, x ∈ seen1 ↔ x ∈ seen2) →
      firstOccurAux seen1 L = firstOccurAux seen2 L := by
  intro L
  induction L with
  | nil => intro _ _ _; rfl
  | cons k ks ih =>
    intro seen1 seen2 hiff
    unfold firstOccurAux
    by_cases hk : k ∈ seen1
    · rw [if_pos hk, if_pos ((hiff k).mp hk)]
      exact ih seen1 seen2 hiff
    · rw [if_neg hk, if_neg (fun hh => hk ((hiff k).mpr hh))]
      refine congrArg (k :: ·) (ih _ _ ?_)
      intro x
      simp only [List.mem_append, List.mem_singleton]
      constructor
      · rintro (hx | hx)
        · exact Or.inl ((hiff x).mp hx)
        · exact Or.inr hx
      · rintro (hx | hx)
        · exact Or.inl ((hiff x).mpr hx)
        · exact Or.inr hx

theorem foldAdd_keys (cu : Bool) :
    ∀ (L : List String) (m : List (String × List String)),
      (L.foldl (fun acc f => addToMapping acc (classifyProject cu f) f) m).map Prod.fst
        = m.map Prod.fst ++ firstOccurAux (m.map Prod.fst) (L.map (classifyProject cu)) := by
  intro L
  induction L with
  | nil => intro m; simp [firstOccurAux]
  | cons f rest ih =>
    intro m
    rw [List.foldl_cons, ih (addToMapping m (classifyProject cu f) f)]
    rw [addToMapping_keys]
    by_cases h : m.any (fun p => p.1 = classifyProject cu f)
    · rw [if_pos h]
      have hin : classifyProject cu f ∈ m.map Prod.fst := (any_key_eq_mem_map m _).mp h
      simp only [List.map_cons]
      rw [firstOccurAux_cons, if_pos hin]
    · rw [if_neg h]
      have hnin : classifyProject cu f ∉ m.map Prod.fst := by
        intro hmem
        rw [← any_key_eq_mem_map m _] at hmem
        rw [hmem] at h
        exact h rfl
      simp only [List.map_cons]
      rw [firstOccurAux_cons, if_neg hnin, List.append_assoc]
      rfl

theorem firstOccurAux_nodup :
    ∀ (L seen : List String),
      (firstOccurAux seen L).Nodup ∧ ∀ x ∈ firstOccurAux seen L, x ∉ seen := by
  intro L
  induction L with
  | nil => intro seen; exact ⟨List.nodup_nil, by intro x hx; simp [firstOccurAux] at hx⟩
  | cons k ks ih =>
    intro seen
    unfold firstOccurAux
    by_cases hk : k ∈ seen
    · rw [if_pos hk]
      exact ih seen
    · rw [if_neg hk]
      obtain ⟨hnd, hnot⟩ := ih (seen ++ [k])
      constructor
      · rw [List.nodup_cons]
        exact ⟨fun hmem => hnot k hmem (by simp), hnd⟩
      · intro x hx hxs
        rcases List.mem_cons.mp hx with he | hx'
        · rw [he] at hxs
          exact hk hxs
        · exact hnot x hx' (by simp [hxs])

theorem mem_iff_lookupP {κ β : Type} [DecidableEq κ] :
    ∀ (d : List (κ × β)), (d.map Prod.fst).Nodup →
      ∀ (k : κ) (v : β), (k, v) ∈ d ↔ lookupP d k = some v := by
  intro d
  induction d with
  | nil => intro _ k v; simp [lookupP]
  | cons p rest ih =>
    intro hnd k v
    rw [List.map_cons, List.nodup_cons] at hnd
    constructor
    · intro hm
      rcases List.mem_cons.mp hm with heq | hm'
      · rw [← heq]
        unfold lookupP
        rw [List.find?]
        simp
      · have hlk := (ih hnd.2 k v).mp hm'
        unfold lookupP
        rw [List.find?]
        by_cases hp : p.1 = k
        · exfalso
          apply hnd.1
          rw [hp]
          exact List.mem_map_of_mem Prod.fst hm'
        · simp only [hp, decide_False]
          exact hlk
    · intro hlk
      unfold lookupP at hlk
      rw [List.find?] at hlk
      by_cases hp : p.1 = k
      · simp only [hp, decide_True, Option.map_some'] at hlk
        have hv : p.2 = v := by
          simpa using hlk
        have hkv : (k, v) = p := by rw [← hp, ← hv]
        rw [hkv]
        exact List.mem_cons_self p rest
      · simp only [hp, decide_False] at hlk
        right
        exact (ih hnd.2 k v).mpr hlk

theorem mappingFold_false (cu : Bool) (bp : String) (files : List String) :
    mappingFold cu bp false files
      = files.foldl (fun m f => addToMapping m (classifyProject cu f) f) [] := by
  unfold mappingFold
  simp

/-- C5: the directory mapper is a function of the set of walked files alone
(any enumeration order gives the same mapping); with relative paths, the
project keys appear in order of first occurrence along the lexicographically
sorted file list, and each project's file list is exactly the sorted matched
files classified to it — hence itself sorted; the unsorted enumeration
`["ProjB/f2.fastq.gz", "ProjA/f1.fastq.gz"]` yields key order
`["ProjA", "ProjB"]`. -/
theorem get_sample_project_mapping_deterministic :
    (∀ (walked1 walked2 : List String) (bp sfx : String) (ap cu : Bool),
        walked1.Perm walked2 →
        get_sample_project_mapping bp walked1 sfx ap cu
          = get_sample_project_mapping bp walked2 sfx ap cu)
    ∧ (∀ (walked : List String) (bp sfx : String) (cu : Bool) (proj : String)
          (l : List String),
        ((get_sample_project_mapping bp walked sfx false cu).map Prod.fst
            = firstOccurAux []
                ((sortStrings ((walked.filter
                    (fun fn => containsSub sfx fn)).map lstripSlashes)).map
                  (classifyProject cu)))
        ∧ ((proj, l) ∈ get_sample_project_mapping bp walked sfx false cu →
            l = (sortStrings ((walked.filter
                  (fun fn => containsSub sfx fn)).map lstripSlashes)).filter
                  (fun f => classifyProject cu f = proj)
            ∧ l.Sorted pyStrLe))
    ∧ get_sample_project_mapping "" ["ProjB/f2.fastq.gz", "ProjA/f1.fastq.gz"]
        ".fastq.gz" false true
        = [("ProjA", ["ProjA/f1.fastq.gz"]), ("ProjB", ["ProjB/f2.fastq.gz"])] := by
  refine ⟨?_, ?_, by decide⟩
  · intro w1 w2 bp sfx ap cu hperm
    unfold get_sample_project_mapping
    have hsorteq : sortStrings ((w1.filter (fun fn => containsSub sfx fn)).map lstripSlashes)
        = sortStrings ((w2.filter (fun fn => containsSub sfx fn)).map lstripSlashes) := by
      refine List.eq_of_perm_of_sorted ?_ (List.sorted_insertionSort pyStrLe _)
        (List.sorted_insertionSort pyStrLe _)
      exact (List.perm_insertionSort _ _).trans
        (((hperm.filter _).map _).trans (List.perm_insertionSort _ _).symm)
    rw [hsorteq]
  · intro walked bp sfx cu proj l
    have hg : get_sample_project_mapping bp walked sfx false cu
        = (sortStrings ((walked.filter
            (fun fn => containsSub sfx fn)).map lstripSlashes)).foldl
            (fun m f => addToMapping m (classifyProject cu f) f) [] := by
      unfold get_sample_project_mapping
      exact mappingFold_false cu bp _
    constructor
    · rw [hg, foldAdd_keys]
      simp only [List.map_nil, List.nil_append]
    · intro hmem
      have hnd : ((get_sample_project_mapping bp walked sfx false cu).map Prod.fst).Nodup := by
        rw [hg, foldAdd_keys]
        simp only [List.map_nil, List.nil_append]
        exact (firstOccurAux_nodup _ _).1
      have hlk := (mem_iff_lookupP _ hnd proj l).mp hmem
      rw [hg, foldAdd_lookup] at hlk
      have hnil : lookupP ([] : List (String × List String)) proj = none := rfl
      rw [hnil] at hlk
      simp only at hlk
      by_cases hemp : ((sortStrings ((walked.filter
          (fun fn => containsSub sfx fn)).map lstripSlashes)).filter
            (fun f => classifyProject cu f = proj)).isEmpty
      · rw [if_pos hemp] at hlk
        exact absurd hlk (by simp)
      · rw [if_neg hemp] at hlk
        have hfil := (Option.some.injEq _ _).mp hlk
        refine ⟨hfil.symm, ?_⟩
        rw [← hfil]
        exact List.Pairwise.filter _ (List.sorted_insertionSort _ _)

/-- Witness for C5's permutation invariance at a concrete pair of
enumeration orders. -/
theorem get_sample_project_mapping_deterministic_witness :
    get_sample_project_mapping "" ["ProjB/f2.fastq.gz", "ProjA/f1.fastq.gz"]
        ".fastq.gz" false true
      = get_sample_project_mapping "" ["ProjA/f1.fastq.gz", "ProjB/f2.fastq.gz"]
        ".fastq.gz" false true :=
  get_sample_project_mapping_deterministic.1 _ _ "" ".fastq.gz" false true
    (List.Perm.swap "ProjA/f1.fastq.gz" "ProjB/f2.fastq.gz" [])

/-! ### Claim C8: the per-project samplesheet filter -/

theorem filterLoop_ok (pci : Nat) (proj : String) :
    ∀ (body acc r : List String),
      filterLoop pci proj body acc = .ok r →
      r = acc ++ (body.filter (fun l =>
          (((pySplitChar (pyStrip l) ',').getD pci "") == proj)
          || pyStartsWith l "#")).map (fun l => pyStrip l ++ "\r\n") := by
  intro body
  induction body with
  | nil =>
    intro acc r h
    simp only [filterLoop] at h
    have : acc = r := by
      cases h
      rfl
    rw [← this]
    simp
  | cons l rest ih =>
    intro acc r h
    simp only [filterLoop] at h
    cases hget : (pySplitChar (pyStrip l) ',').get? pci with
    | none =>
      rw [hget] at h
      exact absurd h (by simp)
    | some v =>
      rw [hget] at h
      have h' : (if v = proj ∨ pyStartsWith l "#" = true then
          filterLoop pci proj rest (acc ++ [pyStrip l ++ "\r\n"])
        else filterLoop pci proj rest acc) = Except.ok r := h
      have hgetD : (pySplitChar (pyStrip l) ',').getD pci "" = v := by
        simp [List.getD_eq_getElem?_getD, ← List.get?_eq_getElem?, hget]
      by_cases hcond : v = proj ∨ pyStartsWith l "#" = true
      · rw [if_pos hcond] at h'
        have hpred : ((((pySplitChar (pyStrip l) ',').getD pci "") == proj)
            || pyStartsWith l "#") = true := by
          rw [hgetD]
          rcases hcond with hc | hc
          · simp [hc]
          · simp [hc]
        rw [List.filter_cons, if_pos hpred]
        rw [ih (acc ++ [pyStrip l ++ "\r\n"]) r h']
        simp
      · rw [if_neg hcond] at h'
        have hpred : ((((pySplitChar (pyStrip l) ',').getD pci "") == proj)
            || pyStartsWith l "#") = false := by
          rw [hgetD]
          push_neg at hcond
          simp [hcond.1, hcond.2]
        rw [List.filter_cons, hpred]
        simp only [Bool.false_eq_true, if_false]
        exact ih acc r h'

/-- C8 counterexample: on a sample sheet whose lines end in `\n`, the filter
emits `\r\n` terminators — the original line terminators are not preserved
byte for byte (each emitted line is the stripped original plus `\r\n`). -/
theorem filter_samplesheet_terminator_not_preserved :
    filter_samplesheet_by_project "FCID,Lane,SampleProject\nr1,1,P1\nr2,1,P2\n"
        "P1" "SampleProject"
      = .ok ["FCID,Lane,SampleProject\r\n", "r1,1,P1\r\n"]
    ∧ readlinesU "FCID,Lane,SampleProject\nr1,1,P1\nr2,1,P2\n"
      = ["FCID,Lane,SampleProject\n", "r1,1,P1\n", "r2,1,P2\n"]
    ∧ ("FCID,Lane,SampleProject\r\n" : String) ≠ "FCID,Lane,SampleProject\n" :=
  ⟨by decide, by decide, by decide⟩

/-- C8 amended: on success the filter returns exactly the stripped header
line followed by the stripped data rows whose project column equals the
target or which start with `#`, in order, every emitted line terminated with
`\r\n` (line terminators are normalised to CRLF — byte-for-byte preservation
holds only for CRLF input); the result is non-empty and its first line is the
stripped header. -/
theorem filter_samplesheet_filtered_lines :
    ∀ (content proj col : String) (r : List String),
      filter_samplesheet_by_project content proj col = .ok r →
      ∃ header body pci,
        headerAndBody (readlinesU content) = some (header, body)
        ∧ listIndex? ((pySplitChar header ',').map stripUnderscores) col = some pci
        ∧ r = (header ++ "\r\n") ::
            (body.filter (fun l =>
              (((pySplitChar (pyStrip l) ',').getD pci "") == proj)
              || pyStartsWith l "#")).map (fun l => pyStrip l ++ "\r\n")
        ∧ r ≠ []
        ∧ r.headD "" = header ++ "\r\n"
        ∧ ∀ x ∈ r, ∃ y, x = y ++ "\r\n" := by
  intro content proj col r h
  unfold filter_samplesheet_by_project at h
  cases hhb : headerAndBody (readlinesU content) with
  | none =>
    rw [hhb] at h
    exact absurd h (by simp)
  | some hb =>
    obtain ⟨header, body⟩ := hb
    rw [hhb] at h
    have h0 : (match listIndex? ((pySplitChar header ',').map stripUnderscores) col with
        | none => Except.error "ValueError"
        | some pci => filterLoop pci proj body [header ++ "\r\n"]) = Except.ok r := h
    cases hidx : listIndex? ((pySplitChar header ',').map stripUnderscores) col with
    | none =>
      rw [hidx] at h0
      exact absurd h0 (by simp)
    | some pci =>
      rw [hidx] at h0
      have hr := filterLoop_ok pci proj body [header ++ "\r\n"] r h0
      refine ⟨header, body, pci, rfl, hidx, by simpa using hr, ?_, ?_, ?_⟩
      · rw [hr]; simp
      · rw [hr]; simp
      · intro x hx
        rw [hr] at hx
        simp only [List.singleton_append, List.mem_cons] at hx
        rcases hx with hx | hx
        · exact ⟨header, hx⟩
        · rw [List.mem_map] at hx
          obtain ⟨l0, _, he⟩ := hx
          exact ⟨pyStrip l0, he.symm⟩

/-- Witness for C8's amended theorem at a CRLF sample sheet containing the
target project and a comment line. -/
theorem filter_samplesheet_filtered_lines_witness :
    ∃ header body pci,
      headerAndBody (readlinesU "FCID,Lane,SampleProject\r\nr1,1,P1\r\nr2,1,P2\r\n#c,,\r\n")
        = some (header, body)
      ∧ listIndex? ((pySplitChar header ',').map stripUnderscores) "SampleProject"
          = some pci
      ∧ ["FCID,Lane,SampleProject\r\n", "r1,1,P1\r\n", "#c,,\r\n"]
          = (header ++ "\r\n") ::
            (body.filter (fun l =>
              (((pySplitChar (pyStrip l) ',').getD pci "") == "P1")
              || pyStartsWith l "#")).map (fun l => pyStrip l ++ "\r\n")
      ∧ (["FCID,Lane,SampleProject\r\n", "r1,1,P1\r\n", "#c,,\r\n"] : List String) ≠ []
      ∧ (["FCID,Lane,SampleProject\r\n", "r1,1,P1\r\n", "#c,,\r\n"] : List String).headD ""
          = header ++ "\r\n"
      ∧ ∀ x ∈ (["FCID,Lane,SampleProject\r\n", "r1,1,P1\r\n", "#c,,\r\n"] : List String),
          ∃ y, x = y ++ "\r\n" :=
  filter_samplesheet_filtered_lines "FCID,Lane,SampleProject\r\nr1,1,P1\r\nr2,1,P2\r\n#c,,\r\n"
    "P1" "SampleProject" ["FCID,Lane,SampleProject\r\n", "r1,1,P1\r\n", "#c,,\r\n"]
    (by decide)
